import Mathlib

/-!
Verification of the agate workflow core (internal/workflow/sprint.go and
internal/workflow/state.go) against its specification.

The embedding models Go strings as lists of characters (`Str`). Lines are
obtained by splitting on the newline character, exactly as
`strings.Split(content, "\n")` does; the regular expressions of the source
are modelled as explicit character-level parsers with the same greedy
(maximal-munch) semantics, which coincides with Go's leftmost-first regexp
matching for the anchored patterns used by the source. File writes are
modelled by an explicit `Disk` record carrying the backing file content and
a flag saying whether a write succeeds.
-/

namespace Agate

/-- Go strings, modelled as lists of characters (code points). -/
abbrev Str := List Char

/-- The failure marker emoji used by the source (U+274C). -/
def failureGlyph : Char := '❌'

/-- The replan marker emoji used by the source (U+1F504). -/
def replanGlyph : Char := '🔄'

/-- Membership in the two-glyph marker alphabet of the sprint grammar. -/
def isGlyph (c : Char) : Bool := c == failureGlyph || c == replanGlyph

/-- The character class matched by the Go regexp escape used in the sprint
patterns (tab, newline, form feed, carriage return, space). -/
def isRegexSpace (c : Char) : Bool :=
  c == ' ' || c == '\t' || c == '\n' || c == '\x0c' || c == '\r'

/-- The whitespace predicate behind Go's strings.TrimSpace, restricted to the
Latin-1 range (the exotic Unicode space code points never appear in any input
considered here). -/
def isGoSpace (c : Char) : Bool :=
  c == ' ' || c == '\t' || c == '\n' || c == '\x0b' || c == '\x0c' || c == '\r' ||
  c == '\x85' || c == '\xa0'

/-- Go's strings.TrimSpace: drop whitespace from both ends. -/
def trimSpace (l : Str) : Str :=
  ((l.dropWhile isGoSpace).reverse.dropWhile isGoSpace).reverse

/-- Go's strings.Split with separator a single newline. -/
def splitOnNl : Str → List Str
  | [] => [[]]
  | c :: cs =>
    if c = '\n' then [] :: splitOnNl cs
    else
      match splitOnNl cs with
      | x :: xs => (c :: x) :: xs
      | [] => [[c]]

/-- Go's strings.Join with separator a single newline. -/
def joinNl : List Str → Str
  | [] => []
  | [l] => l
  | l :: l₂ :: ls => l ++ '\n' :: joinNl (l₂ :: ls)

/-- Go's strings.Replace with limit 1: replace the first occurrence of pat. -/
def replaceFirst (pat rep : Str) : Str → Str
  | [] => []
  | c :: cs =>
    if pat.isPrefixOf (c :: cs) then rep ++ (c :: cs).drop pat.length
    else c :: replaceFirst pat rep cs

/-- A sub-task parsed from a sprint document (SubTask in sprint.go). -/
structure SubTask where
  Index : Nat
  Skill : Str
  Text : Str
  Checked : Bool
  LineNum : Nat
  ParentIndex : Nat
deriving DecidableEq, Repr

/-- A top-level task parsed from a sprint document (Task in sprint.go). -/
structure Task where
  Index : Nat
  Text : Str
  Checked : Bool
  LineNum : Nat
  FailureCount : Nat
  ReplanCount : Nat
  SubTasks : List SubTask
deriving DecidableEq, Repr

/-- The parsed state of a sprint file (SprintState in sprint.go). -/
structure SprintState where
  FilePath : Str
  Tasks : List Task
  Content : Str
deriving DecidableEq, Repr

/-- Checked-state of a checkbox character drawn from the class of the sprint
patterns: strings.ToLower of the capture equals the letter x. -/
def checkedOf (c : Char) : Bool := c == 'x' || c == 'X'

/-- The decomposition shared by the top-level task patterns of the source: a
dash-checkbox prefix, one literal space, then the maximal run of marker
glyphs, then the remainder of the line.  This is the mutation pattern of
AddFailure and AddReplanMarker, which has no whitespace consumption after
the glyph run. -/
def parseMutLine : Str → Option (Char × Str × Str)
  | '-' :: ' ' :: '[' :: c :: ']' :: ' ' :: rest =>
    if c == ' ' || c == 'x' || c == 'X' then
      some (c, rest.takeWhile isGlyph, rest.dropWhile isGlyph)
    else none
  | _ => none

/-- The top-level task pattern of ParseSprintContent and ClearFailures: like
the mutation pattern but the whitespace after the glyph run is consumed
before the text capture. -/
def parseTopLevelRaw (l : Str) : Option (Char × Str × Str) :=
  match parseMutLine l with
  | some (c, g, r) => some (c, g, r.dropWhile isRegexSpace)
  | none => none

/-- The sub-task pattern: exactly two leading spaces, a dash-checkbox prefix,
a nonempty colon-free skill name, a colon and a space, then the text. -/
def parseSubTaskLine : Str → Option (Char × Str × Str)
  | ' ' :: ' ' :: '-' :: ' ' :: '[' :: c :: ']' :: ' ' :: rest =>
    if c == ' ' || c == 'x' || c == 'X' then
      match rest.dropWhile (fun d => !(d == ':')) with
      | ':' :: ' ' :: text =>
        match rest.takeWhile (fun d => !(d == ':')) with
        | [] => none
        | sk => some (c, sk, text)
      | _ => none
    else none
  | _ => none

/-- The line loop of ParseSprintContent: n is the zero-based index of the next
line, ti the index for the next task, cur the currently open task, acc the
finished tasks. -/
def parseLinesRec : List Str → Nat → Nat → Option Task → List Task → List Task
  | [], _, _, cur, acc => acc ++ cur.toList
  | l :: rest, n, ti, cur, acc =>
    match parseTopLevelRaw l with
    | some (c, g, t) =>
      let newTask : Task :=
        { Index := ti, Text := trimSpace t, Checked := checkedOf c, LineNum := n + 1,
          FailureCount := g.count failureGlyph, ReplanCount := g.count replanGlyph,
          SubTasks := [] }
      parseLinesRec rest (n + 1) (ti + 1) (some newTask) (acc ++ cur.toList)
    | none =>
      match cur with
      | some tk =>
        match parseSubTaskLine l with
        | some (c, sk, tx) =>
          let st : SubTask :=
            { Index := tk.SubTasks.length, Skill := trimSpace sk, Text := trimSpace tx,
              Checked := checkedOf c, LineNum := n + 1, ParentIndex := tk.Index }
          parseLinesRec rest (n + 1) ti (some { tk with SubTasks := tk.SubTasks ++ [st] }) acc
        | none => parseLinesRec rest (n + 1) ti (some tk) acc
      | none => parseLinesRec rest (n + 1) ti none acc

/-- ParseSprintContent of sprint.go.  The Go function always returns a nil
error, so the model returns the state directly. -/
def ParseSprintContent (content : Str) : SprintState :=
  { FilePath := [], Tasks := parseLinesRec (splitOnNl content) 0 0 none [],
    Content := content }

/-- The inner scan of GetNextSubTask over the task list: skip checked tasks,
return the first unchecked sub-task found; with no early exit after an
unchecked task whose sub-tasks are all checked, the scan continues into the
following tasks, exactly as the loop in the source does. -/
def GetNextSubTaskList : List Task → Option SubTask
  | [] => none
  | t :: ts =>
    if t.Checked then GetNextSubTaskList ts
    else
      match t.SubTasks.find? (fun st => !st.Checked) with
      | some st => some st
      | none => GetNextSubTaskList ts

/-- GetNextSubTask of sprint.go. -/
def SprintState.GetNextSubTask (s : SprintState) : Option SubTask :=
  GetNextSubTaskList s.Tasks

/-- GetCurrentTask of sprint.go: the first unchecked task. -/
def SprintState.GetCurrentTask (s : SprintState) : Option Task :=
  s.Tasks.find? (fun t => !t.Checked)

/-- IsComplete of sprint.go: false as soon as a task is unchecked, then
nonemptiness of the task list. -/
def SprintState.IsComplete (s : SprintState) : Bool :=
  s.Tasks.all (fun t => t.Checked) && decide (0 < s.Tasks.length)

/-- AllSubTasksComplete of sprint.go: an out-of-range index returns false,
otherwise all sub-tasks checked and at least one present. -/
def SprintState.AllSubTasksComplete (s : SprintState) (taskIndex : Int) : Bool :=
  if taskIndex < 0 ∨ (s.Tasks.length : Int) ≤ taskIndex then false
  else
    match s.Tasks[taskIndex.toNat]? with
    | some t => t.SubTasks.all (fun st => st.Checked) && decide (0 < t.SubTasks.length)
    | none => false

/-- The workflow phases (PlanPhase in the source; a string type there, with
five distinct constant values). -/
inductive PlanPhase where
  | interview
  | design
  | decisions
  | sprint
  | execution
deriving DecidableEq, Repr

/-- The detected workflow state (StatusResult in state.go). -/
structure StatusResult where
  HasGoal : Bool
  Phase : PlanPhase
  InterviewExists : Bool
  InterviewComplete : Bool
  HasDesignOverview : Bool
  HasDesignDecisions : Bool
  DesignFiles : List Str
  Skills : List Str
  CurrentSprintPath : Str
  CurrentSprintNum : Nat
  Sprint : Option SprintState
deriving DecidableEq, Repr

/-- derivePhase of state.go: the phase lattice, first match wins. -/
def derivePhase (r : StatusResult) : PlanPhase :=
  if !r.HasGoal then PlanPhase.interview
  else if !r.InterviewExists || !r.InterviewComplete then PlanPhase.interview
  else if !r.HasDesignOverview then PlanPhase.design
  else if !r.HasDesignDecisions then PlanPhase.decisions
  else if r.CurrentSprintPath = [] then PlanPhase.sprint
  else PlanPhase.execution

/-- GetExitCode of state.go. -/
def GetExitCode (r : StatusResult) : Nat :=
  if !r.HasGoal then 255
  else if r.InterviewExists && !r.InterviewComplete then 255
  else if r.Phase ≠ PlanPhase.execution then 1
  else
    match r.Sprint with
    | none => 1
    | some sp => if sp.IsComplete then 0 else 1

/-- List.find? with the unchecked predicate returns the entry at the first
position whose Checked flag is false, when all earlier entries are checked. -/
theorem find_unchecked_at (l : List SubTask) :
    ∀ (j : Nat) (st : SubTask), l[j]? = some st → st.Checked = false →
    (∀ (j₂ : Nat) (st₂ : SubTask), j₂ < j → l[j₂]? = some st₂ → st₂.Checked = true) →
    l.find? (fun x => !x.Checked) = some st := by
  induction l with
  | nil => intro j st h _ _; simp at h
  | cons hd tl ih =>
    intro j st h hst hprev
    cases j with
    | zero =>
      rw [List.getElem?_cons_zero] at h
      injection h with h
      subst h
      exact List.find?_cons_of_pos _ (by simp [hst])
    | succ j₂ =>
      have hhd : hd.Checked = true := hprev 0 hd (Nat.succ_pos _) (by simp)
      rw [List.getElem?_cons_succ] at h
      rw [List.find?_cons_of_neg _ (by simp [hhd])]
      exact ih j₂ st h hst (fun k st₂ hk hget => hprev (k + 1) st₂ (by omega) (by simpa using hget))

/-- Characterization of the none result of the GetNextSubTask scan. -/
theorem getNextSubTaskList_eq_none_iff (l : List Task) :
    GetNextSubTaskList l = none ↔
      ∀ t ∈ l, t.Checked = false → ∀ st ∈ t.SubTasks, st.Checked = true := by
  induction l with
  | nil => simp [GetNextSubTaskList]
  | cons hd tl ih =>
    rw [GetNextSubTaskList]
    by_cases hc : hd.Checked = true
    · rw [if_pos hc, ih]
      constructor
      · intro h t ht hf
        rcases List.mem_cons.1 ht with rfl | h₂
        · exact absurd hc (by simp [hf])
        · exact h t h₂ hf
      · intro h t ht hf
        exact h t (List.mem_cons_of_mem _ ht) hf
    · rw [if_neg hc]
      cases hfind : hd.SubTasks.find? (fun st => !st.Checked) with
      | some st =>
        simp only [hfind]
        constructor
        · intro h; exact Option.noConfusion h
        · intro h
          have h₁ := h hd (List.mem_cons_self _ _) (by simpa using hc)
          have h₂ := List.mem_of_find?_eq_some hfind
          have h₃ := List.find?_some hfind
          simp at h₃
          exact absurd (h₁ st h₂) (by simp [h₃])
      | none =>
        simp only [hfind]
        rw [ih]
        have hall : ∀ st ∈ hd.SubTasks, st.Checked = true := by
          intro st hst
          have := List.find?_eq_none.1 hfind st hst
          simpa using this
        constructor
        · intro h t ht hf
          rcases List.mem_cons.1 ht with rfl | h₂
          · exact hall
          · exact h t h₂ hf
        · intro h t ht hf
          exact h t (List.mem_cons_of_mem _ ht) hf

/-- If all earlier tasks are checked or fully sub-checked, and task i is
unchecked with its first unchecked sub-task at position j, the scan returns
that sub-task. -/
theorem getNextSubTaskList_eq_some (l : List Task) :
    ∀ (i j : Nat) (t : Task) (st : SubTask),
    l[i]? = some t → t.Checked = false →
    (∀ (k : Nat) (t₂ : Task), k < i → l[k]? = some t₂ →
      t₂.Checked = true ∨ ∀ st₂ ∈ t₂.SubTasks, st₂.Checked = true) →
    t.SubTasks[j]? = some st → st.Checked = false →
    (∀ (j₂ : Nat) (st₂ : SubTask), j₂ < j → t.SubTasks[j₂]? = some st₂ → st₂.Checked = true) →
    GetNextSubTaskList l = some st := by
  induction l with
  | nil => intro i j t st h; simp at h
  | cons hd tl ih =>
    intro i j t st h ht hprev hsub hstc hsubprev
    cases i with
    | zero =>
      rw [List.getElem?_cons_zero] at h
      injection h with h
      subst h
      rw [GetNextSubTaskList, if_neg (by simp [ht])]
      rw [find_unchecked_at _ j st hsub hstc hsubprev]
    | succ i₂ =>
      rw [List.getElem?_cons_succ] at h
      have hrec := ih i₂ j t st h ht
        (fun k t₂ hk hget => hprev (k + 1) t₂ (by omega) (by simpa using hget))
        hsub hstc hsubprev
      rw [GetNextSubTaskList]
      rcases hprev 0 hd (Nat.succ_pos _) (by simp) with hc | hall
      · rw [if_pos hc]; exact hrec
      · by_cases hc : hd.Checked = true
        · rw [if_pos hc]; exact hrec
        · rw [if_neg hc]
          rw [List.find?_eq_none.2 (fun st₂ hst₂ => by simp [hall st₂ hst₂])]
          exact hrec

/-- C1 (counterexample): in the document below, the first unchecked task (at
index 0) has zero sub-tasks, so the claim requires GetNextSubTask to return
none; the code instead keeps scanning and returns the sub-task of the later
task with index 1. -/
theorem claim_C1_counterexample :
    ((ParseSprintContent (("- [ ] A\n- [ ] B\n  - [ ] skill: work").toList)).Tasks.map
        (fun t => (t.Checked, t.SubTasks.length)))[0]? = some (false, 0) ∧
    Option.map SubTask.ParentIndex
      (ParseSprintContent (("- [ ] A\n- [ ] B\n  - [ ] skill: work").toList)).GetNextSubTask =
      some 1 := by
  exact ⟨by decide, by decide⟩

/-- C1 (amended): GetNextSubTask scans tasks in document order and skips both
checked tasks and unchecked tasks with no unchecked sub-task; it returns the
first unchecked sub-task of the first unchecked task that has one, and
returns none exactly when no unchecked task has an unchecked sub-task. -/
theorem claim_C1_amended (s : SprintState) :
    (s.GetNextSubTask = none ↔
      ∀ t ∈ s.Tasks, t.Checked = false → ∀ st ∈ t.SubTasks, st.Checked = true) ∧
    (∀ (i j : Nat) (t : Task) (st : SubTask),
      s.Tasks[i]? = some t → t.Checked = false →
      (∀ (k : Nat) (t₂ : Task), k < i → s.Tasks[k]? = some t₂ →
        t₂.Checked = true ∨ ∀ st₂ ∈ t₂.SubTasks, st₂.Checked = true) →
      t.SubTasks[j]? = some st → st.Checked = false →
      (∀ (j₂ : Nat) (st₂ : SubTask), j₂ < j → t.SubTasks[j₂]? = some st₂ →
        st₂.Checked = true) →
      s.GetNextSubTask = some st) :=
  ⟨getNextSubTaskList_eq_none_iff s.Tasks,
   fun i j t st h ht hp hs hstc hsp =>
     getNextSubTaskList_eq_some s.Tasks i j t st h ht hp hs hstc hsp⟩

/-- C1 (witness): the amended theorem applied to a concrete parsed sprint. -/
theorem claim_C1_witness :
    (ParseSprintContent (("- [ ] B\n  - [ ] b: two").toList)).GetNextSubTask =
      some { Index := 0, Skill := ['b'], Text := ['t', 'w', 'o'], Checked := false,
             LineNum := 2, ParentIndex := 0 } :=
  (claim_C1_amended _).2 0 0
    { Index := 0, Text := ['B'], Checked := false, LineNum := 1, FailureCount := 0,
      ReplanCount := 0,
      SubTasks := [{ Index := 0, Skill := ['b'], Text := ['t', 'w', 'o'], Checked := false,
                     LineNum := 2, ParentIndex := 0 }] }
    { Index := 0, Skill := ['b'], Text := ['t', 'w', 'o'], Checked := false,
      LineNum := 2, ParentIndex := 0 }
    (by decide) (by decide) (fun k t₂ hk _ => absurd hk (Nat.not_lt_zero k))
    (by decide) (by decide) (fun j₂ st₂ hj _ => absurd hj (Nat.not_lt_zero j₂))

/-- C2: GetExitCode is total and yields exactly one outcome — 255 exactly when
the goal is absent or an interview exists and is not complete (checked before
any phase rule); otherwise 0 exactly when the phase is Execution with a parsed
complete sprint; otherwise 1; and never 2. -/
theorem claim_C2 (r : StatusResult) :
    (GetExitCode r = 255 ↔
      (r.HasGoal = false ∨ (r.InterviewExists = true ∧ r.InterviewComplete = false))) ∧
    ((r.HasGoal = true ∧ (r.InterviewExists = true → r.InterviewComplete = true)) →
      (GetExitCode r = 0 ↔
        (r.Phase = PlanPhase.execution ∧ ∃ sp, r.Sprint = some sp ∧ sp.IsComplete = true))) ∧
    ((r.HasGoal = true ∧ (r.InterviewExists = true → r.InterviewComplete = true)) →
      ¬(r.Phase = PlanPhase.execution ∧ ∃ sp, r.Sprint = some sp ∧ sp.IsComplete = true) →
      GetExitCode r = 1) ∧
    GetExitCode r ≠ 2 := by
  obtain ⟨hg, ph, ie, ic, hdo, hdd, df, sk, cp, cn, spr⟩ := r
  cases hg <;> cases ie <;> cases ic <;> cases ph <;> rcases spr with _ | sp <;>
    simp [GetExitCode] <;> cases hC : sp.IsComplete <;> simp [hC]

/-- A concrete execution-phase status result holding a complete parsed
sprint, used to instantiate the C2 theorem. -/
def c2Result : StatusResult :=
  { HasGoal := true, Phase := PlanPhase.execution, InterviewExists := true,
    InterviewComplete := true, HasDesignOverview := true, HasDesignDecisions := true,
    DesignFiles := [], Skills := [], CurrentSprintPath := (".ai/sprints/01-a.md").toList,
    CurrentSprintNum := 1, Sprint := some (ParseSprintContent (("- [x] A").toList)) }

/-- C2 (witness): the done-outcome equivalence at a concrete execution-phase
result holding a complete parsed sprint. -/
theorem claim_C2_witness :
    (c2Result.HasGoal = true ∧
      (c2Result.InterviewExists = true → c2Result.InterviewComplete = true)) ∧
    (GetExitCode c2Result = 0 ↔
      (c2Result.Phase = PlanPhase.execution ∧
        ∃ sp, c2Result.Sprint = some sp ∧ sp.IsComplete = true)) :=
  ⟨⟨rfl, fun _ => rfl⟩, (claim_C2 c2Result).2.1 ⟨rfl, fun _ => rfl⟩⟩

/-- C3: derivePhase checks the phase-lattice conditions in order with first
match winning: no goal or unfinished interview gives Interview, then missing
design overview gives Design, missing decisions gives Decisions, empty sprint
path gives Sprint, and a present sprint path gives Execution. -/
theorem claim_C3 (r : StatusResult) :
    (r.HasGoal = false → derivePhase r = PlanPhase.interview) ∧
    (r.HasGoal = true → (r.InterviewExists = false ∨ r.InterviewComplete = false) →
      derivePhase r = PlanPhase.interview) ∧
    (r.HasGoal = true → r.InterviewExists = true → r.InterviewComplete = true →
      r.HasDesignOverview = false → derivePhase r = PlanPhase.design) ∧
    (r.HasGoal = true → r.InterviewExists = true → r.InterviewComplete = true →
      r.HasDesignOverview = true → r.HasDesignDecisions = false →
      derivePhase r = PlanPhase.decisions) ∧
    (r.HasGoal = true → r.InterviewExists = true → r.InterviewComplete = true →
      r.HasDesignOverview = true → r.HasDesignDecisions = true →
      r.CurrentSprintPath = [] → derivePhase r = PlanPhase.sprint) ∧
    (r.HasGoal = true → r.InterviewExists = true → r.InterviewComplete = true →
      r.HasDesignOverview = true → r.HasDesignDecisions = true →
      r.CurrentSprintPath ≠ [] → derivePhase r = PlanPhase.execution) := by
  refine ⟨fun h₁ => ?_, fun h₁ h₂ => ?_, fun h₁ h₂ h₃ h₄ => ?_,
    fun h₁ h₂ h₃ h₄ h₅ => ?_, fun h₁ h₂ h₃ h₄ h₅ h₆ => ?_, fun h₁ h₂ h₃ h₄ h₅ h₆ => ?_⟩
  · simp [derivePhase, h₁]
  · rcases h₂ with h₂ | h₂ <;> simp [derivePhase, h₁, h₂]
  · simp [derivePhase, h₁, h₂, h₃, h₄]
  · simp [derivePhase, h₁, h₂, h₃, h₄, h₅]
  · simp [derivePhase, h₁, h₂, h₃, h₄, h₅, h₆]
  · simp [derivePhase, h₁, h₂, h₃, h₄, h₅, h₆]

/-- A concrete status result with all artifacts present and a sprint path,
used to instantiate the C3 theorem. -/
def c3Result : StatusResult :=
  { HasGoal := true, Phase := PlanPhase.execution, InterviewExists := true,
    InterviewComplete := true, HasDesignOverview := true, HasDesignDecisions := true,
    DesignFiles := [], Skills := [], CurrentSprintPath := (".ai/sprints/01-a.md").toList,
    CurrentSprintNum := 1, Sprint := none }

/-- C3 (witness): the execution rule of the lattice at a concrete result. -/
theorem claim_C3_witness :
    (c3Result.HasGoal = true ∧ c3Result.InterviewExists = true ∧
      c3Result.InterviewComplete = true ∧ c3Result.HasDesignOverview = true ∧
      c3Result.HasDesignDecisions = true ∧ c3Result.CurrentSprintPath ≠ []) ∧
    derivePhase c3Result = PlanPhase.execution :=
  ⟨⟨rfl, rfl, rfl, rfl, rfl, by decide⟩,
   (claim_C3 c3Result).2.2.2.2.2 rfl rfl rfl rfl rfl (by decide)⟩

/-- C5: a sprint is complete exactly when it has at least one task and every
task is checked; a zero-task document is never complete. -/
theorem claim_C5 (s : SprintState) :
    (s.IsComplete = true ↔ (s.Tasks ≠ [] ∧ ∀ t ∈ s.Tasks, t.Checked = true)) ∧
    (s.Tasks = [] → s.IsComplete = false) := by
  constructor
  · simp [SprintState.IsComplete, List.length_pos]
    tauto
  · intro h
    simp [SprintState.IsComplete, h]

/-- C5 (witness): the zero-task implication at a concrete parsed document. -/
theorem claim_C5_witness :
    (ParseSprintContent (("# empty sprint").toList)).Tasks = [] ∧
    (ParseSprintContent (("# empty sprint").toList)).IsComplete = false :=
  ⟨by decide, (claim_C5 _).2 (by decide)⟩

/-- The backing file of a sprint state together with a flag telling whether a
write to it succeeds (os.WriteFile returning nil or an error). -/
structure Disk where
  FileContent : Str
  WriteOk : Bool
deriving DecidableEq, Repr

/-- The error values surfaced by the mutating sprint operations; the Go code
carries formatted messages, irrelevant to every claim considered here. -/
inductive OpErr where
  | invalidTaskIndex
  | invalidSubTaskIndex
  | invalidLineNum
  | parseTaskLineFailed
  | writeFailed
deriving DecidableEq, Repr

/-- os.WriteFile of the whole document. -/
def writeBack (d : Disk) (new : Str) : Except OpErr Disk :=
  if d.WriteOk then Except.ok { d with FileContent := new } else Except.error OpErr.writeFailed

/-- The tail every mutating operation shares: assign Content (and the updated
task list) on the receiver, then write the whole document back; the in-memory
assignment happens before the write, exactly as in the source. -/
def commitContent (s : SprintState) (newTasks : List Task) (newContent : Str) (d : Disk) :
    Except OpErr Unit × SprintState × Disk :=
  let s₂ : SprintState := { s with Content := newContent, Tasks := newTasks }
  match writeBack d newContent with
  | Except.ok d₂ => (Except.ok (), s₂, d₂)
  | Except.error e => (Except.error e, s₂, d)

/-- checkLineAt of sprint.go: replace the first unchecked-box token on the
line by a checked one; a no-op without write when the line has none. -/
def SprintState.checkLineAt (s : SprintState) (lineNum : Nat) (d : Disk) :
    Except OpErr Unit × SprintState × Disk :=
  let lines := splitOnNl s.Content
  if lineNum < 1 ∨ lines.length < lineNum then (Except.error OpErr.invalidLineNum, s, d)
  else
    match lines[lineNum - 1]? with
    | none => (Except.error OpErr.invalidLineNum, s, d)
    | some line =>
      let newLine := replaceFirst ['[', ' ', ']'] ['[', 'x', ']'] line
      if newLine = line then (Except.ok (), s, d)
      else commitContent s s.Tasks (joinNl (lines.set (lineNum - 1) newLine)) d

/-- uncheckLineAt of sprint.go: try replacing a lowercase checked token, then
an uppercase one; a no-op without write when neither occurs. -/
def SprintState.uncheckLineAt (s : SprintState) (lineNum : Nat) (d : Disk) :
    Except OpErr Unit × SprintState × Disk :=
  let lines := splitOnNl s.Content
  if lineNum < 1 ∨ lines.length < lineNum then (Except.error OpErr.invalidLineNum, s, d)
  else
    match lines[lineNum - 1]? with
    | none => (Except.error OpErr.invalidLineNum, s, d)
    | some line =>
      let try₁ := replaceFirst ['[', 'x', ']'] ['[', ' ', ']'] line
      let newLine := if try₁ = line then replaceFirst ['[', 'X', ']'] ['[', ' ', ']'] line else try₁
      if newLine = line then (Except.ok (), s, d)
      else commitContent s s.Tasks (joinNl (lines.set (lineNum - 1) newLine)) d

/-- CheckSubTask of sprint.go. -/
def SprintState.CheckSubTask (s : SprintState) (taskIndex subTaskIndex : Int) (d : Disk) :
    Except OpErr Unit × SprintState × Disk :=
  if taskIndex < 0 ∨ (s.Tasks.length : Int) ≤ taskIndex then
    (Except.error OpErr.invalidTaskIndex, s, d)
  else
    match s.Tasks[taskIndex.toNat]? with
    | none => (Except.error OpErr.invalidTaskIndex, s, d)
    | some task =>
      if subTaskIndex < 0 ∨ (task.SubTasks.length : Int) ≤ subTaskIndex then
        (Except.error OpErr.invalidSubTaskIndex, s, d)
      else
        match task.SubTasks[subTaskIndex.toNat]? with
        | none => (Except.error OpErr.invalidSubTaskIndex, s, d)
        | some st => s.checkLineAt st.LineNum d

/-- CheckTask of sprint.go. -/
def SprintState.CheckTask (s : SprintState) (taskIndex : Int) (d : Disk) :
    Except OpErr Unit × SprintState × Disk :=
  if taskIndex < 0 ∨ (s.Tasks.length : Int) ≤ taskIndex then
    (Except.error OpErr.invalidTaskIndex, s, d)
  else
    match s.Tasks[taskIndex.toNat]? with
    | none => (Except.error OpErr.invalidTaskIndex, s, d)
    | some task => s.checkLineAt task.LineNum d

/-- UncheckSubTask of sprint.go. -/
def SprintState.UncheckSubTask (s : SprintState) (taskIndex subTaskIndex : Int) (d : Disk) :
    Except OpErr Unit × SprintState × Disk :=
  if taskIndex < 0 ∨ (s.Tasks.length : Int) ≤ taskIndex then
    (Except.error OpErr.invalidTaskIndex, s, d)
  else
    match s.Tasks[taskIndex.toNat]? with
    | none => (Except.error OpErr.invalidTaskIndex, s, d)
    | some task =>
      if subTaskIndex < 0 ∨ (task.SubTasks.length : Int) ≤ subTaskIndex then
        (Except.error OpErr.invalidSubTaskIndex, s, d)
      else
        match task.SubTasks[subTaskIndex.toNat]? with
        | none => (Except.error OpErr.invalidSubTaskIndex, s, d)
        | some st => s.uncheckLineAt st.LineNum d

/-- AddFailure of sprint.go: re-derive the task line with the mutation
pattern, append one failure glyph to the glyph run, bump the in-memory
counter, then write. -/
def SprintState.AddFailure (s : SprintState) (taskIndex : Int) (d : Disk) :
    Except OpErr Unit × SprintState × Disk :=
  if taskIndex < 0 ∨ (s.Tasks.length : Int) ≤ taskIndex then
    (Except.error OpErr.invalidTaskIndex, s, d)
  else
    match s.Tasks[taskIndex.toNat]? with
    | none => (Except.error OpErr.invalidTaskIndex, s, d)
    | some task =>
      let lines := splitOnNl s.Content
      if task.LineNum < 1 ∨ lines.length < task.LineNum then
        (Except.error OpErr.invalidLineNum, s, d)
      else
        match lines[task.LineNum - 1]? with
        | none => (Except.error OpErr.invalidLineNum, s, d)
        | some line =>
          match parseMutLine line with
          | none => (Except.error OpErr.parseTaskLineFailed, s, d)
          | some (c, g, rest) =>
            let newLine := '-' :: ' ' :: '[' :: c :: ']' :: ' ' :: (g ++ failureGlyph :: rest)
            commitContent s
              (s.Tasks.set taskIndex.toNat { task with FailureCount := task.FailureCount + 1 })
              (joinNl (lines.set (task.LineNum - 1) newLine)) d

/-- AddReplanMarker of sprint.go: same shape as AddFailure with the replan
glyph and counter. -/
def SprintState.AddReplanMarker (s : SprintState) (taskIndex : Int) (d : Disk) :
    Except OpErr Unit × SprintState × Disk :=
  if taskIndex < 0 ∨ (s.Tasks.length : Int) ≤ taskIndex then
    (Except.error OpErr.invalidTaskIndex, s, d)
  else
    match s.Tasks[taskIndex.toNat]? with
    | none => (Except.error OpErr.invalidTaskIndex, s, d)
    | some task =>
      let lines := splitOnNl s.Content
      if task.LineNum < 1 ∨ lines.length < task.LineNum then
        (Except.error OpErr.invalidLineNum, s, d)
      else
        match lines[task.LineNum - 1]? with
        | none => (Except.error OpErr.invalidLineNum, s, d)
        | some line =>
          match parseMutLine line with
          | none => (Except.error OpErr.parseTaskLineFailed, s, d)
          | some (c, g, rest) =>
            let newLine := '-' :: ' ' :: '[' :: c :: ']' :: ' ' :: (g ++ replanGlyph :: rest)
            commitContent s
              (s.Tasks.set taskIndex.toNat { task with ReplanCount := task.ReplanCount + 1 })
              (joinNl (lines.set (task.LineNum - 1) newLine)) d

/-- ClearFailures of sprint.go: re-derive the line with the pattern that also
consumes the whitespace after the glyph run, drop every failure glyph from
the run (keeping replan glyphs), zero the in-memory counter, then write. -/
def SprintState.ClearFailures (s : SprintState) (taskIndex : Int) (d : Disk) :
    Except OpErr Unit × SprintState × Disk :=
  if taskIndex < 0 ∨ (s.Tasks.length : Int) ≤ taskIndex then
    (Except.error OpErr.invalidTaskIndex, s, d)
  else
    match s.Tasks[taskIndex.toNat]? with
    | none => (Except.error OpErr.invalidTaskIndex, s, d)
    | some task =>
      let lines := splitOnNl s.Content
      if task.LineNum < 1 ∨ lines.length < task.LineNum then
        (Except.error OpErr.invalidLineNum, s, d)
      else
        match lines[task.LineNum - 1]? with
        | none => (Except.error OpErr.invalidLineNum, s, d)
        | some line =>
          match parseTopLevelRaw line with
          | none => (Except.error OpErr.parseTaskLineFailed, s, d)
          | some (c, g, rest) =>
            let markers := g.filter (fun x => !(x == failureGlyph))
            let newLine :=
              if markers = [] then '-' :: ' ' :: '[' :: c :: ']' :: ' ' :: rest
              else '-' :: ' ' :: '[' :: c :: ']' :: ' ' :: (markers ++ rest)
            commitContent s
              (s.Tasks.set taskIndex.toNat { task with FailureCount := 0 })
              (joinNl (lines.set (task.LineNum - 1) newLine)) d

/-- C9 (counterexample): AllSubTasksComplete answers an out-of-range index
with the plain value false — the very value an in-range query returns for a
task with unchecked sub-tasks — rather than failing with an error, so an
out-of-range index is not a hard error for this indexed operation. -/
theorem claim_C9_counterexample :
    (ParseSprintContent (("- [ ] A\n  - [ ] b: t").toList)).AllSubTasksComplete 5 = false ∧
    (ParseSprintContent (("- [ ] A\n  - [ ] b: t").toList)).AllSubTasksComplete 0 = false := by
  exact ⟨by decide, by decide⟩

/-- C9 (amended): for the six mutating indexed operations an out-of-range task
or sub-task index yields an immediate error with the state and the disk left
untouched; AllSubTasksComplete, which returns a Bool, instead answers false
for an out-of-range index. -/
theorem claim_C9_amended (s : SprintState) (d : Disk) (i j : Int) :
    ((i < 0 ∨ (s.Tasks.length : Int) ≤ i) →
      (s.CheckTask i d = (Except.error OpErr.invalidTaskIndex, s, d) ∧
       s.CheckSubTask i j d = (Except.error OpErr.invalidTaskIndex, s, d) ∧
       s.UncheckSubTask i j d = (Except.error OpErr.invalidTaskIndex, s, d) ∧
       s.AddFailure i d = (Except.error OpErr.invalidTaskIndex, s, d) ∧
       s.AddReplanMarker i d = (Except.error OpErr.invalidTaskIndex, s, d) ∧
       s.ClearFailures i d = (Except.error OpErr.invalidTaskIndex, s, d) ∧
       s.AllSubTasksComplete i = false)) ∧
    (∀ task : Task, s.Tasks[i.toNat]? = some task → ¬(i < 0 ∨ (s.Tasks.length : Int) ≤ i) →
      (j < 0 ∨ (task.SubTasks.length : Int) ≤ j) →
      (s.CheckSubTask i j d = (Except.error OpErr.invalidSubTaskIndex, s, d) ∧
       s.UncheckSubTask i j d = (Except.error OpErr.invalidSubTaskIndex, s, d))) := by
  constructor
  · intro h
    refine ⟨?_, ?_, ?_, ?_, ?_, ?_, ?_⟩
    · rw [SprintState.CheckTask, if_pos h]
    · rw [SprintState.CheckSubTask, if_pos h]
    · rw [SprintState.UncheckSubTask, if_pos h]
    · rw [SprintState.AddFailure, if_pos h]
    · rw [SprintState.AddReplanMarker, if_pos h]
    · rw [SprintState.ClearFailures, if_pos h]
    · rw [SprintState.AllSubTasksComplete, if_pos h]
  · intro task htask hneg hj
    constructor
    · rw [SprintState.CheckSubTask, if_neg hneg, htask]
      exact if_pos hj
    · rw [SprintState.UncheckSubTask, if_neg hneg, htask]
      exact if_pos hj

/-- C9 (witness): the out-of-range branch of the amended theorem at a
concrete parsed sprint with one task. -/
theorem claim_C9_witness :
    ((2 : Int) < 0 ∨
      (((ParseSprintContent (("- [ ] A").toList)).Tasks.length : Int) ≤ 2)) ∧
    (ParseSprintContent (("- [ ] A").toList)).CheckTask 2
        { FileContent := ("- [ ] A").toList, WriteOk := true } =
      (Except.error OpErr.invalidTaskIndex, ParseSprintContent (("- [ ] A").toList),
       { FileContent := ("- [ ] A").toList, WriteOk := true }) :=
  ⟨Or.inr (by decide),
   ((claim_C9_amended (ParseSprintContent (("- [ ] A").toList))
        { FileContent := ("- [ ] A").toList, WriteOk := true } 2 0).1
      (Or.inr (by decide))).1⟩

/-- The persistence contract checked for a mutating operation: on success the
backing file holds exactly the in-memory content, and on any error the disk
is untouched (so it still holds the content from before the call). -/
def SyncSpec (d : Disk) (r : Except OpErr Unit × SprintState × Disk) : Prop :=
  (r.1 = Except.ok () → r.2.2.FileContent = r.2.1.Content) ∧
  (∀ e : OpErr, r.1 = Except.error e → r.2.2 = d)

theorem commitContent_spec (s : SprintState) (nt : List Task) (nc : Str) (d : Disk) :
    SyncSpec d (commitContent s nt nc d) := by
  rw [commitContent, writeBack]
  cases hw : d.WriteOk
  · rw [if_neg (by simp [hw])]
    exact ⟨fun hc => absurd hc (by simp), fun e _ => rfl⟩
  · rw [if_pos (by simp [hw])]
    exact ⟨fun _ => rfl, fun e he => absurd he (by simp)⟩

theorem syncSpec_err (d : Disk) (s : SprintState) (e : OpErr) :
    SyncSpec d (Except.error e, s, d) :=
  ⟨fun hc => absurd hc (by simp), fun _ _ => rfl⟩

theorem syncSpec_ite (d : Disk) (s : SprintState) (c : Prop) [Decidable c]
    (alt : Except OpErr Unit × SprintState × Disk)
    (hsync : d.FileContent = s.Content) (halt : SyncSpec d alt) :
    SyncSpec d (if c then (Except.ok (), s, d) else alt) := by
  split
  · exact ⟨fun _ => hsync, fun e he => absurd he (by simp)⟩
  · exact halt

theorem checkLineAt_syncSpec (s : SprintState) (ln : Nat) (d : Disk)
    (hsync : d.FileContent = s.Content) : SyncSpec d (s.checkLineAt ln d) := by
  rw [SprintState.checkLineAt]
  try dsimp only
  repeat' split
  all_goals
    first
      | exact syncSpec_err _ _ _
      | exact ⟨fun _ => hsync, fun e he => absurd he (by simp)⟩
      | exact commitContent_spec _ _ _ _

theorem uncheckLineAt_syncSpec (s : SprintState) (ln : Nat) (d : Disk)
    (hsync : d.FileContent = s.Content) : SyncSpec d (s.uncheckLineAt ln d) := by
  rw [SprintState.uncheckLineAt]
  try dsimp only
  repeat' split
  all_goals
    first
      | exact syncSpec_err _ _ _
      | exact ⟨fun _ => hsync, fun e he => absurd he (by simp)⟩
      | exact commitContent_spec _ _ _ _

theorem addFailure_syncSpec (s : SprintState) (i : Int) (d : Disk)
    (_hsync : d.FileContent = s.Content) : SyncSpec d (s.AddFailure i d) := by
  rw [SprintState.AddFailure]
  try dsimp only
  repeat' split
  all_goals
    first
      | exact syncSpec_err _ _ _
      | exact commitContent_spec _ _ _ _

theorem addReplanMarker_syncSpec (s : SprintState) (i : Int) (d : Disk)
    (_hsync : d.FileContent = s.Content) : SyncSpec d (s.AddReplanMarker i d) := by
  rw [SprintState.AddReplanMarker]
  try dsimp only
  repeat' split
  all_goals
    first
      | exact syncSpec_err _ _ _
      | exact commitContent_spec _ _ _ _

theorem clearFailures_syncSpec (s : SprintState) (i : Int) (d : Disk)
    (_hsync : d.FileContent = s.Content) : SyncSpec d (s.ClearFailures i d) := by
  rw [SprintState.ClearFailures]
  try dsimp only
  repeat' split
  all_goals
    first
      | exact syncSpec_err _ _ _
      | exact commitContent_spec _ _ _ _

theorem checkSubTask_syncSpec (s : SprintState) (i j : Int) (d : Disk)
    (hsync : d.FileContent = s.Content) : SyncSpec d (s.CheckSubTask i j d) := by
  rw [SprintState.CheckSubTask]
  try dsimp only
  repeat' split
  all_goals
    first
      | exact syncSpec_err _ _ _
      | exact checkLineAt_syncSpec s _ d hsync

theorem checkTask_syncSpec (s : SprintState) (i : Int) (d : Disk)
    (hsync : d.FileContent = s.Content) : SyncSpec d (s.CheckTask i d) := by
  rw [SprintState.CheckTask]
  try dsimp only
  repeat' split
  all_goals
    first
      | exact syncSpec_err _ _ _
      | exact checkLineAt_syncSpec s _ d hsync

theorem uncheckSubTask_syncSpec (s : SprintState) (i j : Int) (d : Disk)
    (hsync : d.FileContent = s.Content) : SyncSpec d (s.UncheckSubTask i j d) := by
  rw [SprintState.UncheckSubTask]
  try dsimp only
  repeat' split
  all_goals
    first
      | exact syncSpec_err _ _ _
      | exact uncheckLineAt_syncSpec s _ d hsync

/-- C10 (counterexample): with a failing write, AddFailure surfaces the error,
but the in-memory Content was already assigned the attempted new document and
no longer matches what is on disk, contradicting the claim that the failed
mutation is not reflected in Content. -/
theorem claim_C10_counterexample :
    ((ParseSprintContent (("- [ ] A").toList)).AddFailure 0
        { FileContent := ("- [ ] A").toList, WriteOk := false }).1 =
      Except.error OpErr.writeFailed ∧
    ((ParseSprintContent (("- [ ] A").toList)).AddFailure 0
        { FileContent := ("- [ ] A").toList, WriteOk := false }).2.1.Content =
      ("- [ ] ❌A").toList ∧
    ((ParseSprintContent (("- [ ] A").toList)).AddFailure 0
        { FileContent := ("- [ ] A").toList, WriteOk := false }).2.2.FileContent =
      ("- [ ] A").toList ∧
    ("- [ ] ❌A").toList ≠ ("- [ ] A").toList := by
  exact ⟨rfl, by decide, by decide, by decide⟩

/-- C10 (amended): assuming Content matches the disk initially, a mutating
operation that reports success leaves the disk holding exactly the (possibly
updated) in-memory document, and an operation that reports an error leaves
the disk untouched; on a write failure the error is surfaced, but Content
holds the attempted new document, which need not match the disk. -/
theorem claim_C10_amended (s : SprintState) (d : Disk) (i j : Int)
    (hsync : d.FileContent = s.Content) :
    SyncSpec d (s.CheckSubTask i j d) ∧ SyncSpec d (s.CheckTask i d) ∧
    SyncSpec d (s.UncheckSubTask i j d) ∧ SyncSpec d (s.AddFailure i d) ∧
    SyncSpec d (s.AddReplanMarker i d) ∧ SyncSpec d (s.ClearFailures i d) :=
  ⟨checkSubTask_syncSpec s i j d hsync, checkTask_syncSpec s i d hsync,
   uncheckSubTask_syncSpec s i j d hsync, addFailure_syncSpec s i d hsync,
   addReplanMarker_syncSpec s i d hsync, clearFailures_syncSpec s i d hsync⟩

/-- C10 (witness): the amended theorem at a concrete state whose AddFailure
succeeds, with the synchronization fact it yields there. -/
theorem claim_C10_witness :
    ({ FileContent := ("- [ ] A").toList, WriteOk := true } : Disk).FileContent =
      (ParseSprintContent (("- [ ] A").toList)).Content ∧
    ((ParseSprintContent (("- [ ] A").toList)).AddFailure 0
        { FileContent := ("- [ ] A").toList, WriteOk := true }).1 = Except.ok () ∧
    ((ParseSprintContent (("- [ ] A").toList)).AddFailure 0
        { FileContent := ("- [ ] A").toList, WriteOk := true }).2.2.FileContent =
      ((ParseSprintContent (("- [ ] A").toList)).AddFailure 0
        { FileContent := ("- [ ] A").toList, WriteOk := true }).2.1.Content :=
  ⟨by decide, rfl,
   ((claim_C10_amended (ParseSprintContent (("- [ ] A").toList))
        { FileContent := ("- [ ] A").toList, WriteOk := true } 0 0
        (by decide)).2.2.2.1).1 rfl⟩

/-- Lexicographic comparison of strings by code point, as a Boolean; for
UTF-8 encoded strings this coincides with the byte-wise order used by Go's
sort.Strings. -/
def lexLeB : Str → Str → Bool
  | [], _ => true
  | _ :: _, [] => false
  | a :: as, b :: bs => if a < b then true else if b < a then false else lexLeB as bs

/-- The lexicographic order as a relation, for use with sorting. -/
def lexLe (a b : Str) : Prop := lexLeB a b = true

instance : DecidableRel lexLe := fun a b => by
  unfold lexLe
  infer_instance

theorem lexLeB_total (a : Str) : ∀ b, lexLeB a b = true ∨ lexLeB b a = true := by
  induction a with
  | nil => intro b; exact Or.inl rfl
  | cons x xs ih =>
    intro b
    cases b with
    | nil => exact Or.inr rfl
    | cons y ys =>
      rcases lt_trichotomy x y with h | h | h
      · left
        simp [lexLeB, h]
      · subst h
        rcases ih ys with h₂ | h₂
        · left
          simp [lexLeB, lt_irrefl, h₂]
        · right
          simp [lexLeB, lt_irrefl, h₂]
      · right
        simp [lexLeB, h]

theorem lexLeB_trans (a : Str) :
    ∀ b c, lexLeB a b = true → lexLeB b c = true → lexLeB a c = true := by
  induction a with
  | nil => intro b c _ _; rfl
  | cons x xs ih =>
    intro b c hab hbc
    cases b with
    | nil => simp [lexLeB] at hab
    | cons y ys =>
      cases c with
      | nil => simp [lexLeB] at hbc
      | cons z zs =>
        rcases lt_trichotomy x y with h₁ | h₁ | h₁
        · rcases lt_trichotomy y z with h₂ | h₂ | h₂
          · simp [lexLeB, lt_trans h₁ h₂]
          · subst h₂
            simp [lexLeB, h₁]
          · simp [lexLeB, lt_asymm h₂, h₂] at hbc
        · subst h₁
          rcases lt_trichotomy x z with h₂ | h₂ | h₂
          · simp [lexLeB, h₂]
          · subst h₂
            simp only [lexLeB] at hab hbc ⊢
            rw [if_neg (lt_irrefl x), if_neg (lt_irrefl x)] at hab
            rw [if_neg (lt_irrefl x), if_neg (lt_irrefl x)] at hbc
            rw [if_neg (lt_irrefl x), if_neg (lt_irrefl x)]
            exact ih ys zs hab hbc
          · simp [lexLeB, lt_asymm h₂, h₂] at hbc
        · simp [lexLeB, lt_asymm h₁, h₁] at hab

theorem lexLeB_antisymm (a : Str) :
    ∀ b, lexLeB a b = true → lexLeB b a = true → a = b := by
  induction a with
  | nil =>
    intro b _ hba
    cases b with
    | nil => rfl
    | cons y ys => simp [lexLeB] at hba
  | cons x xs ih =>
    intro b hab hba
    cases b with
    | nil => simp [lexLeB] at hab
    | cons y ys =>
      rcases lt_trichotomy x y with h | h | h
      · simp [lexLeB, lt_asymm h, h] at hba
      · subst h
        simp only [lexLeB] at hab hba
        rw [if_neg (lt_irrefl x), if_neg (lt_irrefl x)] at hab
        rw [if_neg (lt_irrefl x), if_neg (lt_irrefl x)] at hba
        rw [ih ys hab hba]
      · simp [lexLeB, lt_asymm h, h] at hab

instance : IsTotal Str lexLe := ⟨lexLeB_total⟩

instance : IsTrans Str lexLe := ⟨lexLeB_trans⟩

instance : IsAntisymm Str lexLe := ⟨lexLeB_antisymm⟩

/-- A directory entry as seen through fs.ReadDir. -/
structure DirEntry where
  EntryName : Str
  IsDir : Bool
deriving DecidableEq, Repr

/-- The filesystem snapshot seen by FindCurrentSprintFS: the listing of the
sprints directory (none models a ReadDir error, e.g. the directory does not
exist) and the content read for each path.  In a static snapshot a read of a
listed file succeeds, so reads are total here. -/
structure SprintsFS where
  SprintsDir : Option (List DirEntry)
  ReadFile : Str → Str

/-- ExtractSprintNum of sprint.go: the decimal value of the leading digits of
the filename, 0 when there are none. -/
def ExtractSprintNum (name : Str) : Nat :=
  let ds := name.takeWhile (fun c => c.isDigit)
  if ds = [] then 0 else ds.foldl (fun n c => n * 10 + (c.toNat - ('0').toNat)) 0

/-- The relative directory prefix the source prepends to sprint filenames. -/
def sprintsDirPrefix : Str := (".ai/sprints/").toList

/-- The sprint-file collection step: non-directory entries ending in the
markdown suffix. -/
def mdNames (entries : List DirEntry) : List Str :=
  (entries.filter (fun e => !e.IsDir && (".md").toList.isSuffixOf e.EntryName)).map
    (fun e => e.EntryName)

/-- The selection loop of FindCurrentSprintFS: parse each file in order and
return the first whose parsed state is not complete, with its number. -/
def findFirstIncompleteSprint (fs : SprintsFS) : List Str → Option (Str × Nat)
  | [] => none
  | name :: rest =>
    let path := sprintsDirPrefix ++ name
    let sprint := ParseSprintContent (fs.ReadFile path)
    let num := ExtractSprintNum name
    if !sprint.IsComplete then some (path, num)
    else findFirstIncompleteSprint fs rest

/-- FindCurrentSprintFS of sprint.go: list the sprints directory (no listing
means no current sprint), collect and sort the markdown files, take the first
incomplete one, and fall back to the last file in sorted order. -/
def FindCurrentSprintFS (fs : SprintsFS) : Str × Nat :=
  match fs.SprintsDir with
  | none => ([], 0)
  | some entries =>
    let files := List.insertionSort lexLe (mdNames entries)
    match findFirstIncompleteSprint fs files with
    | some r => r
    | none =>
      match files.getLast? with
      | some name => (sprintsDirPrefix ++ name, ExtractSprintNum name)
      | none => ([], 0)

/-- The selection loop returns the first file, in order, whose parsed state is
not complete, with its path and number. -/
theorem findFirstIncompleteSprint_eq_some (fs : SprintsFS) (files : List Str) :
    ∀ (i : Nat) (name : Str), files[i]? = some name →
    (ParseSprintContent (fs.ReadFile (sprintsDirPrefix ++ name))).IsComplete = false →
    (∀ (k : Nat) (name₂ : Str), k < i → files[k]? = some name₂ →
      (ParseSprintContent (fs.ReadFile (sprintsDirPrefix ++ name₂))).IsComplete = true) →
    findFirstIncompleteSprint fs files = some (sprintsDirPrefix ++ name, ExtractSprintNum name) := by
  induction files with
  | nil => intro i name h; simp at h
  | cons hd tl ih =>
    intro i name h hinc hprev
    cases i with
    | zero =>
      rw [List.getElem?_cons_zero] at h
      injection h with h
      subst h
      simp [findFirstIncompleteSprint, hinc]
    | succ i₂ =>
      have hhd : (ParseSprintContent (fs.ReadFile (sprintsDirPrefix ++ hd))).IsComplete = true :=
        hprev 0 hd (Nat.succ_pos _) (by simp)
      rw [List.getElem?_cons_succ] at h
      rw [findFirstIncompleteSprint]
      simp only [hhd, Bool.not_true]
      rw [if_neg (by simp)]
      exact ih i₂ name h hinc
        (fun k name₂ hk hget => hprev (k + 1) name₂ (by omega) (by simpa using hget))

/-- The selection loop finds nothing when every file parses as complete. -/
theorem findFirstIncompleteSprint_eq_none (fs : SprintsFS) (files : List Str)
    (h : ∀ name ∈ files,
      (ParseSprintContent (fs.ReadFile (sprintsDirPrefix ++ name))).IsComplete = true) :
    findFirstIncompleteSprint fs files = none := by
  induction files with
  | nil => rfl
  | cons hd tl ih =>
    rw [findFirstIncompleteSprint]
    simp only [h hd (List.mem_cons_self _ _), Bool.not_true]
    rw [if_neg (by simp)]
    exact ih (fun name hn => h name (List.mem_cons_of_mem _ hn))

/-- C4: FindCurrentSprintFS reports no current sprint when the directory
cannot be listed; otherwise, over the lexicographically sorted markdown
filenames of the directory, it returns the first one whose parsed state is
not complete (with its extracted number), and falls back to the last sorted
filename when every sprint parses as complete. -/
theorem claim_C4 (fs : SprintsFS) :
    (fs.SprintsDir = none → FindCurrentSprintFS fs = ([], 0)) ∧
    (∀ entries : List DirEntry, fs.SprintsDir = some entries →
      ∀ files : List Str, files.Perm (mdNames entries) → List.Sorted lexLe files →
        ((∀ (i : Nat) (name : Str), files[i]? = some name →
          (ParseSprintContent (fs.ReadFile (sprintsDirPrefix ++ name))).IsComplete = false →
          (∀ (k : Nat) (name₂ : Str), k < i → files[k]? = some name₂ →
            (ParseSprintContent (fs.ReadFile (sprintsDirPrefix ++ name₂))).IsComplete = true) →
          FindCurrentSprintFS fs = (sprintsDirPrefix ++ name, ExtractSprintNum name)) ∧
        ((∀ name ∈ files,
            (ParseSprintContent (fs.ReadFile (sprintsDirPrefix ++ name))).IsComplete = true) →
          ∀ lastName : Str, files.getLast? = some lastName →
          FindCurrentSprintFS fs = (sprintsDirPrefix ++ lastName, ExtractSprintNum lastName)))) := by
  constructor
  · intro h
    simp [FindCurrentSprintFS, h]
  · intro entries hent files hperm hsorted
    have hfiles : List.insertionSort lexLe (mdNames entries) = files := by
      refine List.eq_of_perm_of_sorted ?_ ?_ hsorted
      · exact (List.perm_insertionSort lexLe (mdNames entries)).trans hperm.symm
      · exact List.sorted_insertionSort lexLe (mdNames entries)
    constructor
    · intro i name hget hinc hprev
      have hfind := findFirstIncompleteSprint_eq_some fs files i name hget hinc hprev
      rw [FindCurrentSprintFS, hent]
      simp only [hfiles, hfind]
    · intro hall lastName hlast
      have hfind := findFirstIncompleteSprint_eq_none fs files hall
      rw [FindCurrentSprintFS, hent]
      simp only [hfiles, hfind, hlast]

/-- A concrete two-sprint filesystem: the first sprint is fully checked, the
second has an unchecked task. -/
def c4fs : SprintsFS :=
  { SprintsDir := some [{ EntryName := ("01-a.md").toList, IsDir := false },
                        { EntryName := ("02-b.md").toList, IsDir := false }],
    ReadFile := fun p =>
      if p = (".ai/sprints/01-a.md").toList then ("- [x] A").toList
      else ("- [ ] B").toList }

/-- C4 (witness): the first-incomplete branch of the theorem at the concrete
two-sprint filesystem, resolving to the second sprint with number 2. -/
theorem claim_C4_witness :
    c4fs.SprintsDir = some [{ EntryName := ("01-a.md").toList, IsDir := false },
                            { EntryName := ("02-b.md").toList, IsDir := false }] ∧
    ([("01-a.md").toList, ("02-b.md").toList].Perm
      (mdNames [{ EntryName := ("01-a.md").toList, IsDir := false },
                { EntryName := ("02-b.md").toList, IsDir := false }])) ∧
    List.Sorted lexLe [("01-a.md").toList, ("02-b.md").toList] ∧
    [("01-a.md").toList, ("02-b.md").toList][1]? = some (("02-b.md").toList) ∧
    (ParseSprintContent (c4fs.ReadFile (sprintsDirPrefix ++ ("02-b.md").toList))).IsComplete =
      false ∧
    FindCurrentSprintFS c4fs = (sprintsDirPrefix ++ ("02-b.md").toList, 2) := by
  refine ⟨rfl, by decide, by decide, by decide, by decide, ?_⟩
  exact ((claim_C4 c4fs).2 _ rfl [("01-a.md").toList, ("02-b.md").toList]
    (by decide) (by decide)).1 1 (("02-b.md").toList) (by decide) (by decide)
    (by
      intro k name₂ hk hget
      have hk0 : k = 0 := by omega
      subst hk0
      rw [List.getElem?_cons_zero] at hget
      injection hget with hget
      subst hget
      decide)

theorem splitOnNl_ne_nil (l : Str) : splitOnNl l ≠ [] := by
  cases l with
  | nil => simp [splitOnNl]
  | cons c cs =>
    rw [splitOnNl]
    by_cases h : c = '\n'
    · simp [h]
    · rw [if_neg h]
      cases splitOnNl cs <;> simp

theorem not_mem_of_mem_splitOnNl (l : Str) :
    ∀ x ∈ splitOnNl l, '\n' ∉ x := by
  induction l with
  | nil =>
    intro x hx
    simp [splitOnNl] at hx
    simp [hx]
  | cons c cs ih =>
    intro x hx
    rw [splitOnNl] at hx
    by_cases h : c = '\n'
    · rw [if_pos h] at hx
      rcases List.mem_cons.1 hx with rfl | hx₂
      · simp
      · exact ih x hx₂
    · rw [if_neg h] at hx
      cases hs : splitOnNl cs with
      | nil => exact absurd hs (splitOnNl_ne_nil cs)
      | cons y ys =>
        rw [hs] at hx
        rcases List.mem_cons.1 hx with rfl | hx₂
        · intro hmem
          rcases List.mem_cons.1 hmem with rfl | hmem₂
          · exact h rfl
          · exact ih y (by rw [hs]; exact List.mem_cons_self _ _) hmem₂
        · exact ih x (by rw [hs]; exact List.mem_cons_of_mem _ hx₂)

theorem splitOnNl_of_no_nl (l : Str) (h : '\n' ∉ l) : splitOnNl l = [l] := by
  induction l with
  | nil => rfl
  | cons c cs ih =>
    rw [splitOnNl, if_neg (by intro hc; exact h (by simp [hc]))]
    rw [ih (fun hm => h (List.mem_cons_of_mem _ hm))]

theorem splitOnNl_append_nl (x : Str) (rest : Str) (h : '\n' ∉ x) :
    splitOnNl (x ++ '\n' :: rest) = x :: splitOnNl rest := by
  induction x with
  | nil => simp [splitOnNl]
  | cons c cs ih =>
    rw [List.cons_append, splitOnNl, if_neg (by intro hc; exact h (by simp [hc]))]
    rw [ih (fun hm => h (List.mem_cons_of_mem _ hm))]

theorem splitOnNl_joinNl (ls : List Str) (hne : ls ≠ [])
    (hnl : ∀ x ∈ ls, '\n' ∉ x) : splitOnNl (joinNl ls) = ls := by
  induction ls with
  | nil => exact absurd rfl hne
  | cons x ls₂ ih =>
    cases ls₂ with
    | nil => exact splitOnNl_of_no_nl x (hnl x (List.mem_cons_self _ _))
    | cons y ys =>
      rw [joinNl, splitOnNl_append_nl x _ (hnl x (List.mem_cons_self _ _))]
      rw [ih (by simp) (fun z hz => hnl z (List.mem_cons_of_mem _ hz))]

theorem list_set_getElem_self {α : Type} (l : List α) :
    ∀ (k : Nat) (x : α), l[k]? = some x → l.set k x = l := by
  induction l with
  | nil => intro k x h; simp at h
  | cons hd tl ih =>
    intro k x h
    cases k with
    | zero =>
      rw [List.getElem?_cons_zero] at h
      injection h with h
      subst h
      rfl
    | succ k₂ =>
      rw [List.getElem?_cons_succ] at h
      rw [List.set_cons_succ, ih k₂ x h]

theorem mem_replaceFirst (pat rep : Str) :
    ∀ (l : Str) (x : Char), x ∈ replaceFirst pat rep l → x ∈ l ∨ x ∈ rep := by
  intro l
  induction l with
  | nil => intro x hx; rw [replaceFirst] at hx; simp at hx
  | cons c cs ih =>
    intro x hx
    rw [replaceFirst] at hx
    by_cases hp : pat.isPrefixOf (c :: cs)
    · rw [if_pos hp] at hx
      rcases List.mem_append.1 hx with h₁ | h₂
      · exact Or.inr h₁
      · exact Or.inl (List.mem_of_mem_drop h₂)
    · rw [if_neg hp] at hx
      rcases List.mem_cons.1 hx with rfl | h₂
      · exact Or.inl (List.mem_cons_self _ _)
      · rcases ih x h₂ with h₃ | h₃
        · exact Or.inl (List.mem_cons_of_mem _ h₃)
        · exact Or.inr h₃

/-- Whether a string starts with a marker glyph. -/
def headIsGlyph : Str → Bool
  | [] => false
  | x :: _ => isGlyph x

/-- The canonical shape of a top-level task line: the dash-checkbox prefix,
one space, a glyph run, and the remainder. -/
def mkTaskLine (c : Char) (g r : Str) : Str :=
  '-' :: ' ' :: '[' :: c :: ']' :: ' ' :: (g ++ r)

theorem takeWhile_glyph_append (g r : Str) (hg : ∀ x ∈ g, isGlyph x = true)
    (hr : headIsGlyph r = false) :
    (g ++ r).takeWhile isGlyph = g ∧ (g ++ r).dropWhile isGlyph = r := by
  induction g with
  | nil =>
    simp only [List.nil_append]
    cases r with
    | nil => exact ⟨rfl, rfl⟩
    | cons x xs =>
      rw [headIsGlyph] at hr
      rw [List.takeWhile_cons, List.dropWhile_cons]
      simp [hr]
  | cons y g₂ ih =>
    have hy : isGlyph y = true := hg y (List.mem_cons_self _ _)
    have ih₂ := ih (fun x hx => hg x (List.mem_cons_of_mem _ hx))
    rw [List.cons_append, List.takeWhile_cons, List.dropWhile_cons]
    simp [hy, ih₂.1, ih₂.2]

theorem headIsGlyph_dropWhile (l : Str) : headIsGlyph (l.dropWhile isGlyph) = false := by
  induction l with
  | nil => rfl
  | cons x xs ih =>
    rw [List.dropWhile_cons]
    by_cases hx : isGlyph x = true
    · rw [if_pos hx]
      exact ih
    · rw [if_neg hx]
      rw [headIsGlyph]
      simpa using hx

theorem parseMutLine_mk (c : Char) (g r : Str) (hc : c = ' ' ∨ c = 'x' ∨ c = 'X')
    (hg : ∀ x ∈ g, isGlyph x = true) (hr : headIsGlyph r = false) :
    parseMutLine (mkTaskLine c g r) = some (c, g, r) := by
  have hcb : (c == ' ' || c == 'x' || c == 'X') = true := by
    rcases hc with rfl | rfl | rfl <;> rfl
  rw [mkTaskLine, parseMutLine, if_pos hcb]
  rw [(takeWhile_glyph_append g r hg hr).1, (takeWhile_glyph_append g r hg hr).2]

theorem parseMutLine_sound (l : Str) (c : Char) (g r : Str)
    (h : parseMutLine l = some (c, g, r)) :
    l = mkTaskLine c g r ∧ (c = ' ' ∨ c = 'x' ∨ c = 'X') ∧
      (∀ x ∈ g, isGlyph x = true) ∧ headIsGlyph r = false := by
  rw [parseMutLine.eq_def] at h
  split at h
  · rename_i c₂ rest
    split at h
    · rename_i hcb
      injection h with h
      injection h with h₁ h
      injection h with h₂ h₃
      subst h₁
      refine ⟨?_, ?_, ?_, ?_⟩
      · rw [mkTaskLine]
        subst h₂
        subst h₃
        rw [List.takeWhile_append_dropWhile]
      · rcases Bool.or_eq_true_iff.1 hcb with h₄ | h₄
        · rcases Bool.or_eq_true_iff.1 h₄ with h₅ | h₅
          · exact Or.inl (by simpa using h₅)
          · exact Or.inr (Or.inl (by simpa using h₅))
        · exact Or.inr (Or.inr (by simpa using h₄))
      · subst h₂
        intro x hx
        exact List.mem_takeWhile_imp hx
      · subst h₃
        exact headIsGlyph_dropWhile rest
    · exact absurd h (by simp)
  · exact absurd h (by simp)

theorem parseTopLevelRaw_inv (l : Str) (c : Char) (g t₂ : Str)
    (h : parseTopLevelRaw l = some (c, g, t₂)) :
    ∃ r, parseMutLine l = some (c, g, r) ∧ t₂ = r.dropWhile isRegexSpace := by
  rw [parseTopLevelRaw] at h
  cases hm : parseMutLine l with
  | none => rw [hm] at h; exact absurd h (by simp)
  | some cgr =>
    rcases cgr with ⟨c₀, g₀, r₀⟩
    rw [hm] at h
    injection h with h
    injection h with h₁ h
    injection h with h₂ h₃
    refine ⟨r₀, ?_, h₃.symm⟩
    rw [← h₁, ← h₂]

theorem parseTopLevelRaw_mk (c : Char) (g r : Str) (hc : c = ' ' ∨ c = 'x' ∨ c = 'X')
    (hg : ∀ x ∈ g, isGlyph x = true) (hr : headIsGlyph r = false) :
    parseTopLevelRaw (mkTaskLine c g r) = some (c, g, r.dropWhile isRegexSpace) := by
  rw [parseTopLevelRaw, parseMutLine_mk c g r hc hg hr]

/-- What the parser guarantees about the source line of a task: the line at
LineNum is a well-shaped task line whose pieces yield the task fields. -/
def TaskLineSound (full : List Str) (t : Task) : Prop :=
  1 ≤ t.LineNum ∧ ∃ c g r, full[t.LineNum - 1]? = some (mkTaskLine c g r) ∧
    (c = ' ' ∨ c = 'x' ∨ c = 'X') ∧ (∀ x ∈ g, isGlyph x = true) ∧ headIsGlyph r = false ∧
    t.Checked = checkedOf c ∧ t.FailureCount = g.count failureGlyph ∧
    t.ReplanCount = g.count replanGlyph ∧ t.Text = trimSpace (r.dropWhile isRegexSpace)

/-- What the parser guarantees about the source line of a sub-task: LineNum
is positive and in bounds. -/
def SubSound (full : List Str) (st : SubTask) : Prop :=
  1 ≤ st.LineNum ∧ ∃ line, full[st.LineNum - 1]? = some line

/-- Combined parser soundness for one task. -/
def TaskSound (full : List Str) (t : Task) : Prop :=
  TaskLineSound full t ∧ ∀ st ∈ t.SubTasks, SubSound full st

theorem newTask_sound (full : List Str) (n ti : Nat) (l : Str) (c : Char) (g t₂ : Str)
    (hl : full[n]? = some l) (hp : parseTopLevelRaw l = some (c, g, t₂)) :
    TaskSound full
      { Index := ti, Text := trimSpace t₂, Checked := checkedOf c, LineNum := n + 1,
        FailureCount := g.count failureGlyph, ReplanCount := g.count replanGlyph,
        SubTasks := [] } := by
  obtain ⟨r, hm, ht₂⟩ := parseTopLevelRaw_inv l c g t₂ hp
  obtain ⟨hshape, hcv, hgv, hrv⟩ := parseMutLine_sound l c g r hm
  constructor
  · refine ⟨Nat.succ_le_succ (Nat.zero_le n), c, g, r, ?_, hcv, hgv, hrv, rfl, rfl, rfl, by rw [ht₂]⟩
    simpa using (hshape ▸ hl)
  · intro st hst
    simp at hst

theorem parseLinesRec_sound (full : List Str) :
    ∀ (rem : List Str) (n ti : Nat) (cur : Option Task) (acc : List Task),
    (∀ j : Nat, rem[j]? = full[n + j]?) →
    (∀ t ∈ acc, TaskSound full t) →
    (∀ t, cur = some t → TaskSound full t) →
    ∀ t ∈ parseLinesRec rem n ti cur acc, TaskSound full t := by
  intro rem
  induction rem with
  | nil =>
    intro n ti cur acc hrel hacc hcur t ht
    rw [parseLinesRec] at ht
    rcases List.mem_append.1 ht with h | h
    · exact hacc t h
    · cases cur with
      | none => simp at h
      | some tk =>
        simp at h
        subst h
        exact hcur t rfl
  | cons l rest ih =>
    intro n ti cur acc hrel hacc hcur t ht
    have hl : full[n]? = some l := by
      have h0 := hrel 0
      rw [List.getElem?_cons_zero] at h0
      simpa using h0.symm
    have hrel₂ : ∀ j : Nat, rest[j]? = full[n + 1 + j]? := by
      intro j
      have hj := hrel (j + 1)
      rw [List.getElem?_cons_succ] at hj
      rw [hj]
      congr 1
      omega
    cases cur with
    | none =>
      rw [parseLinesRec] at ht
      cases hp : parseTopLevelRaw l with
      | some cgt =>
        rcases cgt with ⟨c, g, t₂⟩
        rw [hp] at ht
        refine ih (n + 1) (ti + 1) _ _ hrel₂ ?_ ?_ t ht
        · intro t₃ ht₃
          exact hacc t₃ (by simpa using ht₃)
        · intro t₃ ht₃
          injection ht₃ with ht₃
          subst ht₃
          exact newTask_sound full n ti l c g t₂ hl hp
      | none =>
        rw [hp] at ht
        exact ih (n + 1) ti none acc hrel₂ hacc
          (fun t₃ h₃ => absurd h₃ (by simp)) t ht
    | some tk =>
      rw [parseLinesRec] at ht
      cases hp : parseTopLevelRaw l with
      | some cgt =>
        rcases cgt with ⟨c, g, t₂⟩
        rw [hp] at ht
        refine ih (n + 1) (ti + 1) _ _ hrel₂ ?_ ?_ t ht
        · intro t₃ ht₃
          rcases List.mem_append.1 ht₃ with h | h
          · exact hacc t₃ h
          · simp at h
            subst h
            exact hcur t₃ rfl
        · intro t₃ ht₃
          injection ht₃ with ht₃
          subst ht₃
          exact newTask_sound full n ti l c g t₂ hl hp
      | none =>
        rw [hp] at ht
        cases hps : parseSubTaskLine l with
        | some cst =>
          rcases cst with ⟨c, sk, tx⟩
          rw [hps] at ht
          refine ih (n + 1) ti _ acc hrel₂ hacc ?_ t ht
          intro t₃ ht₃
          injection ht₃ with ht₃
          subst ht₃
          have htk := hcur tk rfl
          constructor
          · exact htk.1
          · intro st hst
            rcases List.mem_append.1 hst with h | h
            · exact htk.2 st h
            · simp at h
              subst h
              exact ⟨Nat.succ_le_succ (Nat.zero_le n), l, by simpa using hl⟩
        | none =>
          rw [hps] at ht
          exact ih (n + 1) ti (some tk) acc hrel₂ hacc hcur t ht

/-- Parser soundness for a whole document. -/
theorem parse_sound (content : Str) :
    ∀ t ∈ (ParseSprintContent content).Tasks, TaskSound (splitOnNl content) t := by
  refine parseLinesRec_sound (splitOnNl content) (splitOnNl content) 0 0 none [] ?_ ?_ ?_
  · intro j
    simp
  · intro t ht
    simp at ht
  · intro t ht
    exact absurd ht (by simp)

/-- Replace the marker-derived fields of the task parsed from line K while
leaving every other task unchanged; the effect of swapping one top-level task
line on a re-parse. -/
def modTask (K fc rc : Nat) (tx : Str) (t : Task) : Task :=
  if t.LineNum = K then { t with FailureCount := fc, ReplanCount := rc, Text := tx } else t

theorem modTask_of_ne (K fc rc : Nat) (tx : Str) (t : Task) (h : t.LineNum ≠ K) :
    modTask K fc rc tx t = t := if_neg h

theorem modTask_SubTasks (K fc rc : Nat) (tx : Str) (t : Task) :
    (modTask K fc rc tx t).SubTasks = t.SubTasks := by
  rw [modTask]
  split <;> rfl

theorem modTask_Index (K fc rc : Nat) (tx : Str) (t : Task) :
    (modTask K fc rc tx t).Index = t.Index := by
  rw [modTask]
  split <;> rfl

theorem modTask_LineNum (K fc rc : Nat) (tx : Str) (t : Task) :
    (modTask K fc rc tx t).LineNum = t.LineNum := by
  rw [modTask]
  split <;> rfl

theorem modTask_comm_subtask (K fc rc : Nat) (tx : Str) (tk : Task) (sts : List SubTask) :
    ({ Index := tk.Index, Text := (modTask K fc rc tx tk).Text,
       Checked := (modTask K fc rc tx tk).Checked, LineNum := (modTask K fc rc tx tk).LineNum,
       FailureCount := (modTask K fc rc tx tk).FailureCount,
       ReplanCount := (modTask K fc rc tx tk).ReplanCount, SubTasks := sts } : Task) =
      modTask K fc rc tx
        { Index := tk.Index, Text := tk.Text, Checked := tk.Checked, LineNum := tk.LineNum,
          FailureCount := tk.FailureCount, ReplanCount := tk.ReplanCount, SubTasks := sts } := by
  rcases tk with ⟨ti, tex, tch, tln, tfc, trc, tsub⟩
  dsimp only [modTask]
  by_cases h : tln = K
  · simp only [if_pos h]
  · simp only [if_neg h]

theorem map_modTask_eq_self (K fc rc : Nat) (tx : Str) (l : List Task)
    (h : ∀ t ∈ l, t.LineNum ≠ K) : l.map (modTask K fc rc tx) = l := by
  induction l with
  | nil => rfl
  | cons hd tl ih =>
    rw [List.map_cons, modTask_of_ne K fc rc tx hd (h hd (List.mem_cons_self _ _)),
      ih (fun t ht => h t (List.mem_cons_of_mem _ ht))]

theorem parseLinesRec_cons_top (l : Str) (rest : List Str) (n ti : Nat)
    (cur : Option Task) (acc : List Task) (c : Char) (g t₂ : Str)
    (hp : parseTopLevelRaw l = some (c, g, t₂)) :
    parseLinesRec (l :: rest) n ti cur acc =
      parseLinesRec rest (n + 1) (ti + 1)
        (some { Index := ti, Text := trimSpace t₂, Checked := checkedOf c, LineNum := n + 1,
                FailureCount := g.count failureGlyph, ReplanCount := g.count replanGlyph,
                SubTasks := [] }) (acc ++ cur.toList) := by
  cases cur <;> simp only [parseLinesRec, hp]

theorem parseLinesRec_cons_sub (l : Str) (rest : List Str) (n ti : Nat)
    (tk : Task) (acc : List Task) (c : Char) (sk tx₂ : Str)
    (hp : parseTopLevelRaw l = none) (hps : parseSubTaskLine l = some (c, sk, tx₂)) :
    parseLinesRec (l :: rest) n ti (some tk) acc =
      parseLinesRec rest (n + 1) ti
        (some { tk with SubTasks := tk.SubTasks ++
          [{ Index := tk.SubTasks.length, Skill := trimSpace sk, Text := trimSpace tx₂,
             Checked := checkedOf c, LineNum := n + 1, ParentIndex := tk.Index }] }) acc := by
  simp only [parseLinesRec, hp, hps]

theorem parseLinesRec_cons_inert_some (l : Str) (rest : List Str) (n ti : Nat)
    (tk : Task) (acc : List Task)
    (hp : parseTopLevelRaw l = none) (hps : parseSubTaskLine l = none) :
    parseLinesRec (l :: rest) n ti (some tk) acc =
      parseLinesRec rest (n + 1) ti (some tk) acc := by
  simp only [parseLinesRec, hp, hps]

theorem parseLinesRec_cons_inert_none (l : Str) (rest : List Str) (n ti : Nat)
    (acc : List Task) (hp : parseTopLevelRaw l = none) :
    parseLinesRec (l :: rest) n ti none acc =
      parseLinesRec rest (n + 1) ti none acc := by
  simp only [parseLinesRec, hp]

theorem parseLinesRec_map_mod (K : Nat) (fc rc : Nat) (tx : Str) :
    ∀ (rem : List Str) (n ti : Nat) (cur : Option Task) (acc : List Task),
    K ≤ n →
    parseLinesRec rem n ti (cur.map (modTask K fc rc tx)) (acc.map (modTask K fc rc tx)) =
      (parseLinesRec rem n ti cur acc).map (modTask K fc rc tx) := by
  intro rem
  induction rem with
  | nil =>
    intro n ti cur acc _
    rw [parseLinesRec, parseLinesRec, List.map_append]
    congr 1
    cases cur <;> simp
  | cons l rest ih =>
    intro n ti cur acc hK
    cases hp : parseTopLevelRaw l with
    | some cgt =>
      rcases cgt with ⟨c, g, t₂⟩
      rw [parseLinesRec_cons_top l rest n ti (cur.map (modTask K fc rc tx))
            (acc.map (modTask K fc rc tx)) c g t₂ hp,
          parseLinesRec_cons_top l rest n ti cur acc c g t₂ hp]
      have hnt : modTask K fc rc tx
          { Index := ti, Text := trimSpace t₂, Checked := checkedOf c, LineNum := n + 1,
            FailureCount := g.count failureGlyph, ReplanCount := g.count replanGlyph,
            SubTasks := [] } =
          { Index := ti, Text := trimSpace t₂, Checked := checkedOf c, LineNum := n + 1,
            FailureCount := g.count failureGlyph, ReplanCount := g.count replanGlyph,
            SubTasks := [] } :=
        modTask_of_ne K fc rc tx _ (by show n + 1 ≠ K; omega)
      have step := ih (n + 1) (ti + 1)
        (some { Index := ti, Text := trimSpace t₂, Checked := checkedOf c, LineNum := n + 1,
                FailureCount := g.count failureGlyph, ReplanCount := g.count replanGlyph,
                SubTasks := [] }) (acc ++ cur.toList) (by omega)
      rw [Option.map_some', hnt, List.map_append] at step
      rw [show (cur.map (modTask K fc rc tx)).toList =
            cur.toList.map (modTask K fc rc tx) from by cases cur <;> rfl]
      exact step
    | none =>
      cases cur with
      | none =>
        simp only [Option.map_none']
        rw [parseLinesRec_cons_inert_none l rest n ti _ hp,
            parseLinesRec_cons_inert_none l rest n ti acc hp]
        have := ih (n + 1) ti none acc (by omega)
        simpa using this
      | some tk =>
        simp only [Option.map_some']
        cases hps : parseSubTaskLine l with
        | some cst =>
          rcases cst with ⟨c, sk, tx₂⟩
          rw [parseLinesRec_cons_sub l rest n ti (modTask K fc rc tx tk) _ c sk tx₂ hp hps,
              parseLinesRec_cons_sub l rest n ti tk acc c sk tx₂ hp hps]
          rw [modTask_SubTasks, modTask_Index]
          have step := ih (n + 1) ti
            (some { Index := tk.Index, Text := tk.Text, Checked := tk.Checked,
                    LineNum := tk.LineNum, FailureCount := tk.FailureCount,
                    ReplanCount := tk.ReplanCount,
                    SubTasks := tk.SubTasks ++
                      [{ Index := tk.SubTasks.length, Skill := trimSpace sk,
                         Text := trimSpace tx₂, Checked := checkedOf c, LineNum := n + 1,
                         ParentIndex := tk.Index }] }) acc (by omega)
          have hcomm := modTask_comm_subtask K fc rc tx tk
            (tk.SubTasks ++
              [{ Index := tk.SubTasks.length, Skill := trimSpace sk, Text := trimSpace tx₂,
                 Checked := checkedOf c, LineNum := n + 1, ParentIndex := tk.Index }])
          rw [Option.map_some', ← hcomm] at step
          exact step
        | none =>
          rw [parseLinesRec_cons_inert_some l rest n ti (modTask K fc rc tx tk) _ hp hps,
              parseLinesRec_cons_inert_some l rest n ti tk acc hp hps]
          have := ih (n + 1) ti (some tk) acc (by omega)
          simpa using this

theorem parseLinesRec_set_topLevel :
    ∀ (rem : List Str) (k n ti : Nat) (cur : Option Task) (acc : List Task)
      (l l₂ : Str) (c : Char) (g t₂ g₂ t₃ : Str),
    rem[k]? = some l →
    parseTopLevelRaw l = some (c, g, t₂) →
    parseTopLevelRaw l₂ = some (c, g₂, t₃) →
    (∀ tk ∈ acc, tk.LineNum ≤ n) →
    (∀ tk, cur = some tk → tk.LineNum ≤ n) →
    parseLinesRec (rem.set k l₂) n ti cur acc =
      (parseLinesRec rem n ti cur acc).map
        (modTask (n + k + 1) (g₂.count failureGlyph) (g₂.count replanGlyph) (trimSpace t₃)) := by
  intro rem
  induction rem with
  | nil => intro k n ti cur acc l l₂ c g t₂ g₂ t₃ hk; simp at hk
  | cons x rest ih =>
    intro k n ti cur acc l l₂ c g t₂ g₂ t₃ hk hp₁ hp₂ hacc hcur
    cases k with
    | zero =>
      rw [List.getElem?_cons_zero] at hk
      injection hk with hk
      subst hk
      rw [List.set_cons_zero]
      rw [parseLinesRec_cons_top l₂ rest n ti cur acc c g₂ t₃ hp₂,
          parseLinesRec_cons_top x rest n ti cur acc c g t₂ hp₁]
      rw [← parseLinesRec_map_mod (n + 0 + 1) (g₂.count failureGlyph) (g₂.count replanGlyph)
        (trimSpace t₃) rest (n + 1) (ti + 1) _ _ (by omega)]
      have hcore : Option.map
          (modTask (n + 0 + 1) (g₂.count failureGlyph) (g₂.count replanGlyph) (trimSpace t₃))
          (some { Index := ti, Text := trimSpace t₂, Checked := checkedOf c, LineNum := n + 1,
                  FailureCount := g.count failureGlyph, ReplanCount := g.count replanGlyph,
                  SubTasks := [] }) =
          some { Index := ti, Text := trimSpace t₃, Checked := checkedOf c, LineNum := n + 1,
                 FailureCount := g₂.count failureGlyph, ReplanCount := g₂.count replanGlyph,
                 SubTasks := [] } := by
        rw [Option.map_some']
        dsimp only [modTask]
        rw [if_pos (by show n + 1 = n + 0 + 1; omega)]
      rw [hcore]
      have hfix : (acc ++ cur.toList).map
          (modTask (n + 0 + 1) (g₂.count failureGlyph) (g₂.count replanGlyph) (trimSpace t₃)) =
          acc ++ cur.toList := by
        refine map_modTask_eq_self _ _ _ _ _ ?_
        intro t ht
        rcases List.mem_append.1 ht with h | h
        · have := hacc t h
          omega
        · cases cur with
          | none => simp at h
          | some tk =>
            simp at h
            subst h
            have := hcur t rfl
            omega
      rw [hfix]
    | succ j =>
      rw [List.getElem?_cons_succ] at hk
      rw [List.set_cons_succ]
      have harith : n + 1 + j + 1 = n + (j + 1) + 1 := by omega
      cases hp : parseTopLevelRaw x with
      | some cgt =>
        rcases cgt with ⟨cx, gx, tx⟩
        rw [parseLinesRec_cons_top x (rest.set j l₂) n ti cur acc cx gx tx hp,
            parseLinesRec_cons_top x rest n ti cur acc cx gx tx hp]
        rw [← harith]
        refine ih j (n + 1) (ti + 1) _ _ l l₂ c g t₂ g₂ t₃ hk hp₁ hp₂ ?_ ?_
        · intro tk htk
          rcases List.mem_append.1 htk with h | h
          · have := hacc tk h
            omega
          · cases cur with
            | none => simp at h
            | some tk₂ =>
              simp at h
              subst h
              have := hcur tk rfl
              omega
        · intro tk htk
          injection htk with htk
          subst htk
          simp
      | none =>
        cases cur with
        | none =>
          rw [parseLinesRec_cons_inert_none x (rest.set j l₂) n ti acc hp,
              parseLinesRec_cons_inert_none x rest n ti acc hp]
          rw [← harith]
          exact ih j (n + 1) ti none acc l l₂ c g t₂ g₂ t₃ hk hp₁ hp₂
            (fun tk htk => le_trans (hacc tk htk) (by omega))
            (fun tk htk => absurd htk (by simp))
        | some tk =>
          cases hps : parseSubTaskLine x with
          | some cst =>
            rcases cst with ⟨cx, skx, txx⟩
            rw [parseLinesRec_cons_sub x (rest.set j l₂) n ti tk acc cx skx txx hp hps,
                parseLinesRec_cons_sub x rest n ti tk acc cx skx txx hp hps]
            rw [← harith]
            refine ih j (n + 1) ti _ acc l l₂ c g t₂ g₂ t₃ hk hp₁ hp₂
              (fun tk₂ htk₂ => le_trans (hacc tk₂ htk₂) (by omega)) ?_
            intro tk₂ htk₂
            injection htk₂ with htk₂
            subst htk₂
            have := hcur tk rfl
            simpa using by omega
          | none =>
            rw [parseLinesRec_cons_inert_some x (rest.set j l₂) n ti tk acc hp hps,
                parseLinesRec_cons_inert_some x rest n ti tk acc hp hps]
            rw [← harith]
            refine ih j (n + 1) ti (some tk) acc l l₂ c g t₂ g₂ t₃ hk hp₁ hp₂
              (fun tk₂ htk₂ => le_trans (hacc tk₂ htk₂) (by omega)) ?_
            intro tk₂ htk₂
            injection htk₂ with htk₂
            subst htk₂
            have := hcur tk rfl
            omega

theorem addFailure_success (s : SprintState) (i : Nat) (t : Task) (d : Disk)
    (ht : s.Tasks[i]? = some t) (hw : d.WriteOk = true)
    (c : Char) (gg rest : Str)
    (hc : c = ' ' ∨ c = 'x' ∨ c = 'X') (hg : ∀ x ∈ gg, isGlyph x = true)
    (hr : headIsGlyph rest = false) (hpos : 1 ≤ t.LineNum)
    (hline : (splitOnNl s.Content)[t.LineNum - 1]? = some (mkTaskLine c gg rest)) :
    s.AddFailure (i : Int) d =
      (Except.ok (),
       { s with
           Content :=
             joinNl
               ((splitOnNl s.Content).set (t.LineNum - 1)
                 (mkTaskLine c (gg ++ [failureGlyph]) rest)),
           Tasks := s.Tasks.set i { t with FailureCount := t.FailureCount + 1 } },
       { d with
           FileContent :=
             joinNl
               ((splitOnNl s.Content).set (t.LineNum - 1)
                 (mkTaskLine c (gg ++ [failureGlyph]) rest)) }) := by
  have hilen : i < s.Tasks.length := by
    by_contra hcon
    rw [List.getElem?_eq_none (by omega)] at ht
    exact absurd ht (by simp)
  have hib : ¬((i : Int) < 0 ∨ (s.Tasks.length : Int) ≤ (i : Int)) := by
    push_neg
    constructor
    · exact Int.ofNat_nonneg i
    · exact_mod_cast hilen
  have hlb : t.LineNum - 1 < (splitOnNl s.Content).length := by
    by_contra hcon
    rw [List.getElem?_eq_none (by omega)] at hline
    exact absurd hline (by simp)
  have hb₂ : ¬(t.LineNum < 1 ∨ (splitOnNl s.Content).length < t.LineNum) := by
    push_neg
    exact ⟨hpos, by omega⟩
  rw [SprintState.AddFailure, if_neg hib, Int.toNat_natCast, ht]
  simp only [if_neg hb₂, hline, commitContent, writeBack, hw, if_true, mkTaskLine]
  rw [show ('-' :: ' ' :: '[' :: c :: ']' :: ' ' :: (gg ++ rest)) = mkTaskLine c gg rest from rfl,
    parseMutLine_mk c gg rest hc hg hr]
  dsimp only
  simp only [List.append_assoc, List.singleton_append]

theorem addReplanMarker_success (s : SprintState) (i : Nat) (t : Task) (d : Disk)
    (ht : s.Tasks[i]? = some t) (hw : d.WriteOk = true)
    (c : Char) (gg rest : Str)
    (hc : c = ' ' ∨ c = 'x' ∨ c = 'X') (hg : ∀ x ∈ gg, isGlyph x = true)
    (hr : headIsGlyph rest = false) (hpos : 1 ≤ t.LineNum)
    (hline : (splitOnNl s.Content)[t.LineNum - 1]? = some (mkTaskLine c gg rest)) :
    s.AddReplanMarker (i : Int) d =
      (Except.ok (),
       { s with
           Content :=
             joinNl
               ((splitOnNl s.Content).set (t.LineNum - 1)
                 (mkTaskLine c (gg ++ [replanGlyph]) rest)),
           Tasks := s.Tasks.set i { t with ReplanCount := t.ReplanCount + 1 } },
       { d with
           FileContent :=
             joinNl
               ((splitOnNl s.Content).set (t.LineNum - 1)
                 (mkTaskLine c (gg ++ [replanGlyph]) rest)) }) := by
  have hilen : i < s.Tasks.length := by
    by_contra hcon
    rw [List.getElem?_eq_none (by omega)] at ht
    exact absurd ht (by simp)
  have hib : ¬((i : Int) < 0 ∨ (s.Tasks.length : Int) ≤ (i : Int)) := by
    push_neg
    constructor
    · exact Int.ofNat_nonneg i
    · exact_mod_cast hilen
  have hlb : t.LineNum - 1 < (splitOnNl s.Content).length := by
    by_contra hcon
    rw [List.getElem?_eq_none (by omega)] at hline
    exact absurd hline (by simp)
  have hb₂ : ¬(t.LineNum < 1 ∨ (splitOnNl s.Content).length < t.LineNum) := by
    push_neg
    exact ⟨hpos, by omega⟩
  rw [SprintState.AddReplanMarker, if_neg hib, Int.toNat_natCast, ht]
  simp only [if_neg hb₂, hline, commitContent, writeBack, hw, if_true, mkTaskLine]
  rw [show ('-' :: ' ' :: '[' :: c :: ']' :: ' ' :: (gg ++ rest)) = mkTaskLine c gg rest from rfl,
    parseMutLine_mk c gg rest hc hg hr]
  dsimp only
  simp only [List.append_assoc, List.singleton_append]

theorem mem_of_getElemOpt {α : Type} (l : List α) (k : Nat) (a : α) (h : l[k]? = some a) :
    a ∈ l := by
  obtain ⟨h₁, h₂⟩ := List.getElem?_eq_some.1 h
  exact h₂ ▸ List.getElem_mem h₁

theorem getElemOpt_set_self {α : Type} (l : List α) (k : Nat) (a : α) (h : k < l.length) :
    (l.set k a)[k]? = some a := by
  rw [List.getElem?_set_self', List.getElem?_eq_getElem h]
  rfl

theorem nl_not_mem_mkTaskLine_parts (c : Char) (g r : Str) (h : '\n' ∉ mkTaskLine c g r) :
    '\n' ∉ g ∧ '\n' ∉ r := by
  constructor
  · intro hmem
    exact h (by simp [mkTaskLine, hmem])
  · intro hmem
    exact h (by simp [mkTaskLine, hmem])

theorem nl_not_mem_mkTaskLine_intro (c : Char) (g r : Str)
    (hc : c = ' ' ∨ c = 'x' ∨ c = 'X') (hg : '\n' ∉ g) (hr : '\n' ∉ r) :
    '\n' ∉ mkTaskLine c g r := by
  intro hmem
  simp [mkTaskLine] at hmem
  rcases hmem with h | h | h
  · rcases hc with rfl | rfl | rfl <;> simp at h
  · exact hg h
  · exact hr h

/-- The glyph string appended by a sequence of marker operations (true is an
AddFailure, false an AddReplanMarker). -/
def glyphsOf (ops : List Bool) : Str :=
  ops.map (fun b => if b then failureGlyph else replanGlyph)

theorem glyphsOf_all_glyph (ops : List Bool) : ∀ x ∈ glyphsOf ops, isGlyph x = true := by
  intro x hx
  rw [glyphsOf] at hx
  obtain ⟨b, _, hb⟩ := List.mem_map.1 hx
  cases b <;> rw [← hb] <;> simp [isGlyph, failureGlyph, replanGlyph]

theorem nl_not_mem_glyphsOf (ops : List Bool) : '\n' ∉ glyphsOf ops := by
  intro hmem
  have := glyphsOf_all_glyph ops _ hmem
  simp [isGlyph, failureGlyph, replanGlyph] at this

theorem count_failure_glyphsOf (ops : List Bool) :
    (glyphsOf ops).count failureGlyph = ops.count true := by
  induction ops with
  | nil => rfl
  | cons b rest ih =>
    cases b <;> simp [glyphsOf, List.count_cons, failureGlyph, replanGlyph] at ih ⊢ <;>
      omega

theorem count_replan_glyphsOf (ops : List Bool) :
    (glyphsOf ops).count replanGlyph = ops.count false := by
  induction ops with
  | nil => rfl
  | cons b rest ih =>
    cases b <;> simp [glyphsOf, List.count_cons, failureGlyph, replanGlyph] at ih ⊢ <;>
      omega

/-- An interleaved sequence of marker operations on one task: true applies
AddFailure, false applies AddReplanMarker, stopping at the first error. -/
def applyMarkOps (i : Int) : List Bool → SprintState → Disk → Except OpErr (SprintState × Disk)
  | [], s, d => Except.ok (s, d)
  | b :: rest, s, d =>
    match (if b then s.AddFailure i d else s.AddReplanMarker i d) with
    | (Except.ok _, s₂, d₂) => applyMarkOps i rest s₂ d₂
    | (Except.error e, _, _) => Except.error e

theorem applyMarkOps_invariant (c : Char) (rest : Str)
    (hc : c = ' ' ∨ c = 'x' ∨ c = 'X') (hr : headIsGlyph rest = false) :
    ∀ (ops : List Bool) (s : SprintState) (d : Disk) (i : Nat) (t : Task) (gg : Str),
    s.Tasks[i]? = some t →
    1 ≤ t.LineNum →
    (∀ x ∈ gg, isGlyph x = true) →
    (splitOnNl s.Content)[t.LineNum - 1]? = some (mkTaskLine c gg rest) →
    (∀ x ∈ splitOnNl s.Content, '\n' ∉ x) →
    d.WriteOk = true →
    d.FileContent = s.Content →
    ∃ s₂ d₂, applyMarkOps (i : Int) ops s d = Except.ok (s₂, d₂) ∧
      s₂.Tasks = s.Tasks.set i
        { t with FailureCount := t.FailureCount + ops.count true,
                 ReplanCount := t.ReplanCount + ops.count false } ∧
      splitOnNl s₂.Content =
        (splitOnNl s.Content).set (t.LineNum - 1) (mkTaskLine c (gg ++ glyphsOf ops) rest) ∧
      d₂.WriteOk = true ∧ d₂.FileContent = s₂.Content := by
  intro ops
  induction ops with
  | nil =>
    intro s d i t gg ht hpos hg hline hnl hw hsync
    refine ⟨s, d, rfl, ?_, ?_, hw, hsync⟩
    · have h0 : ({ t with
          FailureCount := t.FailureCount + List.count true [],
          ReplanCount := t.ReplanCount + List.count false [] } : Task) = t := by
        cases t
        rfl
      rw [h0, list_set_getElem_self s.Tasks i t ht]
    · rw [show glyphsOf [] = [] from rfl, List.append_nil]
      rw [list_set_getElem_self _ _ _ hline]
  | cons b ops₂ ih =>
    intro s d i t gg ht hpos hg hline hnl hw hsync
    have hilen : i < s.Tasks.length := by
      by_contra hcon
      rw [List.getElem?_eq_none (by omega)] at ht
      exact absurd ht (by simp)
    have hlb : t.LineNum - 1 < (splitOnNl s.Content).length := by
      by_contra hcon
      rw [List.getElem?_eq_none (by omega)] at hline
      exact absurd hline (by simp)
    have hnlLine : '\n' ∉ mkTaskLine c gg rest :=
      hnl _ (mem_of_getElemOpt _ _ _ hline)
    have hnlParts := nl_not_mem_mkTaskLine_parts c gg rest hnlLine
    cases b with
    | true =>
      have hstep := addFailure_success s i t d ht hw c gg rest hc hg hr hpos hline
      rw [show applyMarkOps (i : Int) (true :: ops₂) s d =
        (match (s.AddFailure (i : Int) d) with
         | (Except.ok _, s₂, d₂) => applyMarkOps (i : Int) ops₂ s₂ d₂
         | (Except.error e, _, _) => Except.error e) from by rw [applyMarkOps, if_pos rfl]]
      rw [hstep]
      set nc := joinNl ((splitOnNl s.Content).set (t.LineNum - 1)
        (mkTaskLine c (gg ++ [failureGlyph]) rest)) with hnc
      have hnlNew : '\n' ∉ mkTaskLine c (gg ++ [failureGlyph]) rest := by
        refine nl_not_mem_mkTaskLine_intro c _ rest hc ?_ hnlParts.2
        intro hmem
        rcases List.mem_append.1 hmem with h | h
        · exact hnlParts.1 h
        · simp [failureGlyph] at h
      have hnl₂ : ∀ x ∈ (splitOnNl s.Content).set (t.LineNum - 1)
          (mkTaskLine c (gg ++ [failureGlyph]) rest), '\n' ∉ x := by
        intro x hx
        rcases List.mem_or_eq_of_mem_set hx with h | h
        · exact hnl x h
        · rw [h]
          exact hnlNew
      have hsplit : splitOnNl nc = (splitOnNl s.Content).set (t.LineNum - 1)
          (mkTaskLine c (gg ++ [failureGlyph]) rest) := by
        rw [hnc]
        refine splitOnNl_joinNl _ ?_ hnl₂
        intro hcon
        have hlen := congrArg List.length hcon
        rw [List.length_set] at hlen
        simp only [List.length_nil] at hlen
        omega
      obtain ⟨s₂, d₂, happ, htasks, hlines, hw₂, hsync₂⟩ :=
        ih { s with Content := nc, Tasks := s.Tasks.set i { t with FailureCount := t.FailureCount + 1 } } { d with FileContent := nc } i { t with FailureCount := t.FailureCount + 1 }
          (gg ++ [failureGlyph])
          (by
            show (s.Tasks.set i { t with FailureCount := t.FailureCount + 1 })[i]? = _
            exact getElemOpt_set_self _ _ _ hilen)
          hpos
          (by
            intro x hx
            rcases List.mem_append.1 hx with h | h
            · exact hg x h
            · simp at h
              rw [h]
              rfl)
          (by
            show (splitOnNl nc)[t.LineNum - 1]? = _
            rw [hsplit]
            exact getElemOpt_set_self _ _ _ hlb)
          (by
            show ∀ x ∈ splitOnNl nc, '\n' ∉ x
            rw [hsplit]
            exact hnl₂)
          hw rfl
      refine ⟨s₂, d₂, happ, ?_, ?_, hw₂, hsync₂⟩
      · rw [htasks, List.set_set]
        congr 1
        cases t
        simp [List.count_cons]
        omega
      · rw [hlines, hsplit, List.set_set]
        congr 2
        rw [List.append_assoc]
        rfl
    | false =>
      have hstep := addReplanMarker_success s i t d ht hw c gg rest hc hg hr hpos hline
      rw [show applyMarkOps (i : Int) (false :: ops₂) s d =
        (match (s.AddReplanMarker (i : Int) d) with
         | (Except.ok _, s₂, d₂) => applyMarkOps (i : Int) ops₂ s₂ d₂
         | (Except.error e, _, _) => Except.error e) from by rw [applyMarkOps, if_neg (by simp)]]
      rw [hstep]
      set nc := joinNl ((splitOnNl s.Content).set (t.LineNum - 1)
        (mkTaskLine c (gg ++ [replanGlyph]) rest)) with hnc
      have hnlNew : '\n' ∉ mkTaskLine c (gg ++ [replanGlyph]) rest := by
        refine nl_not_mem_mkTaskLine_intro c _ rest hc ?_ hnlParts.2
        intro hmem
        rcases List.mem_append.1 hmem with h | h
        · exact hnlParts.1 h
        · simp [replanGlyph] at h
      have hnl₂ : ∀ x ∈ (splitOnNl s.Content).set (t.LineNum - 1)
          (mkTaskLine c (gg ++ [replanGlyph]) rest), '\n' ∉ x := by
        intro x hx
        rcases List.mem_or_eq_of_mem_set hx with h | h
        · exact hnl x h
        · rw [h]
          exact hnlNew
      have hsplit : splitOnNl nc = (splitOnNl s.Content).set (t.LineNum - 1)
          (mkTaskLine c (gg ++ [replanGlyph]) rest) := by
        rw [hnc]
        refine splitOnNl_joinNl _ ?_ hnl₂
        intro hcon
        have hlen := congrArg List.length hcon
        rw [List.length_set] at hlen
        simp only [List.length_nil] at hlen
        omega
      obtain ⟨s₂, d₂, happ, htasks, hlines, hw₂, hsync₂⟩ :=
        ih { s with Content := nc, Tasks := s.Tasks.set i { t with ReplanCount := t.ReplanCount + 1 } } { d with FileContent := nc } i { t with ReplanCount := t.ReplanCount + 1 }
          (gg ++ [replanGlyph])
          (by
            show (s.Tasks.set i { t with ReplanCount := t.ReplanCount + 1 })[i]? = _
            exact getElemOpt_set_self _ _ _ hilen)
          hpos
          (by
            intro x hx
            rcases List.mem_append.1 hx with h | h
            · exact hg x h
            · simp at h
              rw [h]
              rfl)
          (by
            show (splitOnNl nc)[t.LineNum - 1]? = _
            rw [hsplit]
            exact getElemOpt_set_self _ _ _ hlb)
          (by
            show ∀ x ∈ splitOnNl nc, '\n' ∉ x
            rw [hsplit]
            exact hnl₂)
          hw rfl
      refine ⟨s₂, d₂, happ, ?_, ?_, hw₂, hsync₂⟩
      · rw [htasks, List.set_set]
        congr 1
        cases t
        simp [List.count_cons]
        omega
      · rw [hlines, hsplit, List.set_set]
        congr 2
        rw [List.append_assoc]
        rfl

/-- C6: for every task line (the line of task i of a parsed document) and
every interleaved sequence of AddFailure (true) and AddReplanMarker (false)
calls on that task, all calls succeed, and re-parsing the resulting document
yields the initial failure count plus the number of failure-adds and the
initial replan count plus the number of replan-adds, independent of the
interleaving order; the pre-existing glyph run is preserved as a prefix, in
order, with the added glyphs after it, and the task text is unchanged. -/
theorem claim_C6 (content : Str) (i : Nat) (ops : List Bool) (t : Task)
    (ht : (ParseSprintContent content).Tasks[i]? = some t) :
    ∃ s₂ d₂, applyMarkOps (i : Int) ops (ParseSprintContent content)
        { FileContent := content, WriteOk := true } = Except.ok (s₂, d₂) ∧
      ∃ t₂, (ParseSprintContent s₂.Content).Tasks[i]? = some t₂ ∧
        t₂.FailureCount = t.FailureCount + ops.count true ∧
        t₂.ReplanCount = t.ReplanCount + ops.count false ∧
        t₂.Checked = t.Checked ∧ t₂.Text = t.Text ∧
        (ParseSprintContent s₂.Content).Tasks.length =
          (ParseSprintContent content).Tasks.length ∧
        ∃ c g rest, (splitOnNl content)[t.LineNum - 1]? = some (mkTaskLine c g rest) ∧
          (splitOnNl s₂.Content)[t.LineNum - 1]? =
            some (mkTaskLine c (g ++ glyphsOf ops) rest) := by
  obtain ⟨⟨hpos, c, g, rest, hline, hc, hg, hr, hch, hfc, hrc, htx⟩, _⟩ :=
    parse_sound content t (mem_of_getElemOpt _ _ _ ht)
  obtain ⟨s₂, d₂, happ, htasks, hlines, hw₂, hsync₂⟩ :=
    applyMarkOps_invariant c rest hc hr ops (ParseSprintContent content)
      { FileContent := content, WriteOk := true } i t g ht hpos hg hline
      (not_mem_of_mem_splitOnNl content) rfl rfl
  have hlb : t.LineNum - 1 < (splitOnNl content).length := by
    by_contra hcon
    rw [List.getElem?_eq_none (by omega)] at hline
    exact absurd hline (by simp)
  have hg₂ : ∀ x ∈ g ++ glyphsOf ops, isGlyph x = true := by
    intro x hx
    rcases List.mem_append.1 hx with h | h
    · exact hg x h
    · exact glyphsOf_all_glyph ops x h
  have hmap : (ParseSprintContent s₂.Content).Tasks =
      (ParseSprintContent content).Tasks.map
        (modTask (0 + (t.LineNum - 1) + 1) ((g ++ glyphsOf ops).count failureGlyph)
          ((g ++ glyphsOf ops).count replanGlyph)
          (trimSpace (rest.dropWhile isRegexSpace))) := by
    show parseLinesRec (splitOnNl s₂.Content) 0 0 none [] = _
    rw [hlines]
    exact parseLinesRec_set_topLevel (splitOnNl content) (t.LineNum - 1) 0 0 none []
      (mkTaskLine c g rest) (mkTaskLine c (g ++ glyphsOf ops) rest) c g
      (rest.dropWhile isRegexSpace) (g ++ glyphsOf ops) (rest.dropWhile isRegexSpace)
      hline (parseTopLevelRaw_mk c g rest hc hg hr)
      (parseTopLevelRaw_mk c (g ++ glyphsOf ops) rest hc hg₂ hr)
      (by intro tk htk; simp at htk) (by intro tk htk; exact absurd htk (by simp))
  have hKeq : 0 + (t.LineNum - 1) + 1 = t.LineNum := by omega
  refine ⟨s₂, d₂, happ,
    modTask (0 + (t.LineNum - 1) + 1) ((g ++ glyphsOf ops).count failureGlyph)
      ((g ++ glyphsOf ops).count replanGlyph) (trimSpace (rest.dropWhile isRegexSpace)) t,
    ?_, ?_, ?_, ?_, ?_, ?_, c, g, rest, hline, ?_⟩
  · rw [hmap, List.getElem?_map, ht]
    rfl
  · rw [modTask, if_pos hKeq.symm]
    show (g ++ glyphsOf ops).count failureGlyph = t.FailureCount + ops.count true
    rw [List.count_append, count_failure_glyphsOf, hfc]
  · rw [modTask, if_pos hKeq.symm]
    show (g ++ glyphsOf ops).count replanGlyph = t.ReplanCount + ops.count false
    rw [List.count_append, count_replan_glyphsOf, hrc]
  · rw [modTask]
    split <;> rfl
  · rw [modTask, if_pos hKeq.symm]
    show trimSpace (rest.dropWhile isRegexSpace) = t.Text
    rw [htx]
  · rw [hmap, List.length_map]
  · rw [hlines]
    exact getElemOpt_set_self _ _ _ hlb

/-- C6 (witness): one failure-add and one replan-add on a task that already
carries one failure glyph, re-parsed. -/
theorem claim_C6_witness :
    (ParseSprintContent (("- [ ] ❌ T").toList)).Tasks[0]? =
      some { Index := 0, Text := ['T'], Checked := false, LineNum := 1, FailureCount := 1,
             ReplanCount := 0, SubTasks := [] } ∧
    ∃ s₂ d₂, applyMarkOps 0 [true, false] (ParseSprintContent (("- [ ] ❌ T").toList))
        { FileContent := ("- [ ] ❌ T").toList, WriteOk := true } = Except.ok (s₂, d₂) ∧
      ∃ t₂, (ParseSprintContent s₂.Content).Tasks[0]? = some t₂ ∧
        t₂.FailureCount = 2 ∧ t₂.ReplanCount = 1 ∧ t₂.Checked = false ∧ t₂.Text = ['T'] ∧
        (ParseSprintContent s₂.Content).Tasks.length =
          (ParseSprintContent (("- [ ] ❌ T").toList)).Tasks.length ∧
        ∃ c g rest, (splitOnNl (("- [ ] ❌ T").toList))[0]? = some (mkTaskLine c g rest) ∧
          (splitOnNl s₂.Content)[0]? = some (mkTaskLine c (g ++ glyphsOf [true, false]) rest) :=
  ⟨by decide,
   claim_C6 (("- [ ] ❌ T").toList) 0 [true, false]
     { Index := 0, Text := ['T'], Checked := false, LineNum := 1, FailureCount := 1,
       ReplanCount := 0, SubTasks := [] } (by decide)⟩

/-- The whitespace-run collapse performed by the normalization regexp: every
maximal whitespace run becomes a single space. -/
def collapseWs : Str → Str
  | [] => []
  | c :: cs =>
    if isRegexSpace c then ' ' :: collapseWs (cs.dropWhile isRegexSpace)
    else c :: collapseWs cs
termination_by l => l.length
decreasing_by
  · simp only [List.length_cons]
    have := (List.dropWhile_sublist isRegexSpace (l := cs)).length_le
    omega
  · simp

/-- NormalizeTaskText of sprint.go: trim, strip both marker glyphs, collapse
whitespace runs to single spaces, trim again. -/
def NormalizeTaskText (text : Str) : Str :=
  trimSpace
    (collapseWs
      (((trimSpace text).filter (fun x => !(x == failureGlyph))).filter
        (fun x => !(x == replanGlyph))))

theorem dropWhile_dropWhile {α : Type} (p : α → Bool) (l : List α) :
    (l.dropWhile p).dropWhile p = l.dropWhile p := by
  induction l with
  | nil => rfl
  | cons x xs ih =>
    rw [List.dropWhile_cons]
    by_cases hx : p x = true
    · rw [if_pos hx]
      exact ih
    · rw [if_neg hx]
      rw [List.dropWhile_cons, if_neg hx]

theorem glyph_not_goSpace (x : Char) (h : isGlyph x = true) : isGoSpace x = false := by
  rw [isGlyph] at h
  rcases Bool.or_eq_true_iff.1 h with h₂ | h₂
  · rw [show x = failureGlyph from by simpa using h₂]
    rfl
  · rw [show x = replanGlyph from by simpa using h₂]
    rfl

theorem trimSpace_cons_of_not_space (x : Char) (xs : Str) (hx : isGoSpace x = false) :
    ∃ ys, trimSpace (x :: xs) = x :: ys := by
  rw [trimSpace, List.dropWhile_cons, if_neg (by simp [hx])]
  have hsuf : (x :: xs).reverse.dropWhile isGoSpace <:+ (x :: xs).reverse :=
    List.dropWhile_suffix isGoSpace
  have hpre : ((x :: xs).reverse.dropWhile isGoSpace).reverse <+: (x :: xs) := by
    have h₂ := List.reverse_prefix.2 hsuf
    simpa using h₂
  cases hrev : ((x :: xs).reverse.dropWhile isGoSpace).reverse with
  | nil =>
    exfalso
    have hnil : (x :: xs).reverse.dropWhile isGoSpace = [] := by
      have := congrArg List.reverse hrev
      simpa using this
    have hall := List.dropWhile_eq_nil_iff.1 hnil
    have := hall x (by simp)
    rw [hx] at this
    exact absurd this (by simp)
  | cons y ys =>
    obtain ⟨tail, htail⟩ := hpre
    rw [hrev] at htail
    rw [List.cons_append] at htail
    injection htail with h₁ _
    exact ⟨ys, by rw [h₁]⟩

theorem headIsGlyph_of_trim (l : Str) (h : headIsGlyph (trimSpace l) = false) :
    headIsGlyph l = false := by
  cases hl : l with
  | nil => rfl
  | cons x xs =>
    by_cases hx : isGlyph x = true
    · exfalso
      obtain ⟨ys, hys⟩ := trimSpace_cons_of_not_space x xs (glyph_not_goSpace x hx)
      rw [hl, hys] at h
      rw [headIsGlyph] at h
      rw [hx] at h
      exact absurd h (by simp)
    · rw [headIsGlyph]
      simpa using hx

theorem count_failure_filter (g : Str) :
    (g.filter (fun x => !(x == failureGlyph))).count failureGlyph = 0 := by
  rw [List.count_eq_zero]
  intro hmem
  have := (List.mem_filter.1 hmem).2
  simp at this

theorem count_replan_filter (g : Str) :
    (g.filter (fun x => !(x == failureGlyph))).count replanGlyph = g.count replanGlyph := by
  induction g with
  | nil => rfl
  | cons x xs ih =>
    rw [List.filter_cons]
    by_cases hx : x = failureGlyph
    · rw [if_neg (by simp [hx])]
      rw [ih, List.count_cons, if_neg (by simp [hx, failureGlyph, replanGlyph]), Nat.add_zero]
    · rw [if_pos (by simp [hx])]
      rw [List.count_cons, List.count_cons, ih]

theorem clearFailures_success (s : SprintState) (i : Nat) (t : Task) (d : Disk)
    (ht : s.Tasks[i]? = some t) (hw : d.WriteOk = true)
    (c : Char) (gg rest : Str)
    (hc : c = ' ' ∨ c = 'x' ∨ c = 'X') (hg : ∀ x ∈ gg, isGlyph x = true)
    (hr : headIsGlyph rest = false) (hpos : 1 ≤ t.LineNum)
    (hline : (splitOnNl s.Content)[t.LineNum - 1]? = some (mkTaskLine c gg rest)) :
    s.ClearFailures (i : Int) d =
      (Except.ok (),
       { s with
           Content :=
             joinNl
               ((splitOnNl s.Content).set (t.LineNum - 1)
                 (mkTaskLine c (gg.filter (fun x => !(x == failureGlyph)))
                   (rest.dropWhile isRegexSpace))),
           Tasks := s.Tasks.set i { t with FailureCount := 0 } },
       { d with
           FileContent :=
             joinNl
               ((splitOnNl s.Content).set (t.LineNum - 1)
                 (mkTaskLine c (gg.filter (fun x => !(x == failureGlyph)))
                   (rest.dropWhile isRegexSpace))) }) := by
  have hilen : i < s.Tasks.length := by
    by_contra hcon
    rw [List.getElem?_eq_none (by omega)] at ht
    exact absurd ht (by simp)
  have hib : ¬((i : Int) < 0 ∨ (s.Tasks.length : Int) ≤ (i : Int)) := by
    push_neg
    constructor
    · exact Int.ofNat_nonneg i
    · exact_mod_cast hilen
  have hlb : t.LineNum - 1 < (splitOnNl s.Content).length := by
    by_contra hcon
    rw [List.getElem?_eq_none (by omega)] at hline
    exact absurd hline (by simp)
  have hb₂ : ¬(t.LineNum < 1 ∨ (splitOnNl s.Content).length < t.LineNum) := by
    push_neg
    exact ⟨hpos, by omega⟩
  rw [SprintState.ClearFailures, if_neg hib, Int.toNat_natCast, ht]
  simp only [if_neg hb₂, hline, commitContent, writeBack, hw, if_true]
  rw [parseTopLevelRaw_mk c gg rest hc hg hr]
  dsimp only
  by_cases hm : (gg.filter (fun x => !(x == failureGlyph))) = []
  · rw [if_pos hm, hm]
    simp [mkTaskLine]
  · rw [if_neg hm]
    simp [mkTaskLine]

/-- C7 (counterexample): on the line whose description itself begins with a
replan glyph separated from the failure glyph by the space the clearing
pattern swallows, a successful ClearFailures merges that glyph into the
marker run: the re-parsed replan count rises from 0 to 1, so the replan
count is not preserved. -/
theorem claim_C7_counterexample :
    ((ParseSprintContent (("- [ ] ❌ 🔄text").toList)).Tasks[0]?.map Task.ReplanCount
        = some 0) ∧
    ((ParseSprintContent (("- [ ] ❌ 🔄text").toList)).ClearFailures 0
        { FileContent := ("- [ ] ❌ 🔄text").toList, WriteOk := true }).1 = Except.ok () ∧
    ((ParseSprintContent
        (((ParseSprintContent (("- [ ] ❌ 🔄text").toList)).ClearFailures 0
          { FileContent := ("- [ ] ❌ 🔄text").toList, WriteOk := true }).2.1.Content)).Tasks[0]?.map
        Task.ReplanCount = some 1) :=
  ⟨by decide, rfl, by decide⟩

/-- C7 (amended): for a parsed task whose text does not itself begin with a
marker glyph, ClearFailures succeeds, writes the new document to disk, and
after re-parsing the task has failure count 0, its replan count unchanged,
its checked flag and text unchanged (hence an unchanged normalized text),
with the number of tasks preserved. -/
theorem claim_C7 (content : Str) (i : Nat) (t : Task)
    (ht : (ParseSprintContent content).Tasks[i]? = some t)
    (htext : headIsGlyph t.Text = false) :
    ∃ s₂ d₂, (ParseSprintContent content).ClearFailures (i : Int)
        { FileContent := content, WriteOk := true } = (Except.ok (), s₂, d₂) ∧
      d₂.FileContent = s₂.Content ∧
      (ParseSprintContent s₂.Content).Tasks.length =
        (ParseSprintContent content).Tasks.length ∧
      ∃ t₂, (ParseSprintContent s₂.Content).Tasks[i]? = some t₂ ∧
        t₂.FailureCount = 0 ∧
        t₂.ReplanCount = t.ReplanCount ∧
        t₂.Checked = t.Checked ∧
        t₂.Text = t.Text ∧
        NormalizeTaskText t₂.Text = NormalizeTaskText t.Text := by
  obtain ⟨⟨hpos, c, gg, rest, hline, hc, hg, hr, hch, hfc, hrc, htx⟩, _⟩ :=
    parse_sound content t (mem_of_getElemOpt _ _ _ ht)
  have hres := clearFailures_success (ParseSprintContent content) i t
    { FileContent := content, WriteOk := true } ht rfl c gg rest hc hg hr hpos hline
  have hg' : ∀ x ∈ gg.filter (fun x => !(x == failureGlyph)), isGlyph x = true :=
    fun x hx => hg x (List.mem_filter.1 hx).1
  rw [htx] at htext
  have hr₂ : headIsGlyph (rest.dropWhile isRegexSpace) = false :=
    headIsGlyph_of_trim _ htext
  have hlb : t.LineNum - 1 < (splitOnNl content).length := by
    by_contra hcon
    rw [List.getElem?_eq_none (by omega)] at hline
    exact absurd hline (by simp)
  have hnlLine : '\n' ∉ mkTaskLine c gg rest :=
    not_mem_of_mem_splitOnNl content _ (mem_of_getElemOpt _ _ _ hline)
  obtain ⟨hnlg, hnlr⟩ := nl_not_mem_mkTaskLine_parts c gg rest hnlLine
  have hnlNew : '\n' ∉ mkTaskLine c (gg.filter (fun x => !(x == failureGlyph)))
      (rest.dropWhile isRegexSpace) := by
    refine nl_not_mem_mkTaskLine_intro c _ _ hc ?_ ?_
    · intro hmem
      exact hnlg (List.mem_filter.1 hmem).1
    · intro hmem
      exact hnlr ((List.dropWhile_sublist isRegexSpace).subset hmem)
  have hsetne : (splitOnNl content).set (t.LineNum - 1)
      (mkTaskLine c (gg.filter (fun x => !(x == failureGlyph)))
        (rest.dropWhile isRegexSpace)) ≠ [] := by
    intro hnil
    have hlen := congrArg List.length hnil
    rw [List.length_set] at hlen
    simp only [List.length_nil] at hlen
    omega
  have hnl₂ : ∀ x ∈ (splitOnNl content).set (t.LineNum - 1)
      (mkTaskLine c (gg.filter (fun x => !(x == failureGlyph)))
        (rest.dropWhile isRegexSpace)), '\n' ∉ x := by
    intro x hx
    rcases List.mem_or_eq_of_mem_set hx with h | h
    · exact not_mem_of_mem_splitOnNl content x h
    · rw [h]
      exact hnlNew
  have hsplit : splitOnNl (joinNl ((splitOnNl content).set (t.LineNum - 1)
      (mkTaskLine c (gg.filter (fun x => !(x == failureGlyph)))
        (rest.dropWhile isRegexSpace)))) =
      (splitOnNl content).set (t.LineNum - 1)
        (mkTaskLine c (gg.filter (fun x => !(x == failureGlyph)))
          (rest.dropWhile isRegexSpace)) :=
    splitOnNl_joinNl _ hsetne hnl₂
  have hp₁ := parseTopLevelRaw_mk c gg rest hc hg hr
  have hp₂ : parseTopLevelRaw (mkTaskLine c (gg.filter (fun x => !(x == failureGlyph)))
      (rest.dropWhile isRegexSpace)) =
      some (c, gg.filter (fun x => !(x == failureGlyph)), rest.dropWhile isRegexSpace) := by
    rw [parseTopLevelRaw_mk c _ _ hc hg' hr₂, dropWhile_dropWhile]
  have hmap : (ParseSprintContent (joinNl ((splitOnNl content).set (t.LineNum - 1)
      (mkTaskLine c (gg.filter (fun x => !(x == failureGlyph)))
        (rest.dropWhile isRegexSpace))))).Tasks =
      (ParseSprintContent content).Tasks.map
        (modTask (0 + (t.LineNum - 1) + 1)
          ((gg.filter (fun x => !(x == failureGlyph))).count failureGlyph)
          ((gg.filter (fun x => !(x == failureGlyph))).count replanGlyph)
          (trimSpace (rest.dropWhile isRegexSpace))) := by
    show parseLinesRec (splitOnNl (joinNl ((splitOnNl content).set (t.LineNum - 1)
      (mkTaskLine c (gg.filter (fun x => !(x == failureGlyph)))
        (rest.dropWhile isRegexSpace))))) 0 0 none [] = _
    rw [hsplit]
    exact parseLinesRec_set_topLevel (splitOnNl content) (t.LineNum - 1) 0 0 none []
      (mkTaskLine c gg rest)
      (mkTaskLine c (gg.filter (fun x => !(x == failureGlyph))) (rest.dropWhile isRegexSpace))
      c gg (rest.dropWhile isRegexSpace) (gg.filter (fun x => !(x == failureGlyph)))
      (rest.dropWhile isRegexSpace) hline hp₁ hp₂
      (by intro tk htk; simp at htk) (by intro tk htk; exact absurd htk (by simp))
  have hKeq : 0 + (t.LineNum - 1) + 1 = t.LineNum := by omega
  refine ⟨_, _, hres, rfl, ?_, ?_⟩
  · show (ParseSprintContent (joinNl ((splitOnNl content).set (t.LineNum - 1)
      (mkTaskLine c (gg.filter (fun x => !(x == failureGlyph)))
        (rest.dropWhile isRegexSpace))))).Tasks.length = _
    rw [hmap, List.length_map]
  refine ⟨modTask (0 + (t.LineNum - 1) + 1)
    ((gg.filter (fun x => !(x == failureGlyph))).count failureGlyph)
    ((gg.filter (fun x => !(x == failureGlyph))).count replanGlyph)
    (trimSpace (rest.dropWhile isRegexSpace)) t, ?_, ?_, ?_, ?_, ?_, ?_⟩
  · show (ParseSprintContent (joinNl ((splitOnNl content).set (t.LineNum - 1)
      (mkTaskLine c (gg.filter (fun x => !(x == failureGlyph)))
        (rest.dropWhile isRegexSpace))))).Tasks[i]? = _
    rw [hmap, List.getElem?_map, ht]
    rfl
  · rw [modTask, if_pos hKeq.symm]
    show (gg.filter (fun x => !(x == failureGlyph))).count failureGlyph = 0
    exact count_failure_filter gg
  · rw [modTask, if_pos hKeq.symm]
    show (gg.filter (fun x => !(x == failureGlyph))).count replanGlyph = t.ReplanCount
    rw [count_replan_filter]
    exact hrc.symm
  · rw [modTask]
    split <;> rfl
  · rw [modTask, if_pos hKeq.symm]
    show trimSpace (rest.dropWhile isRegexSpace) = t.Text
    exact htx.symm
  · rw [modTask, if_pos hKeq.symm]
    show NormalizeTaskText (trimSpace (rest.dropWhile isRegexSpace)) = NormalizeTaskText t.Text
    rw [htx]

/-- C7 (witness): clearing two failure glyphs next to one replan glyph on a
task whose text starts with an ordinary letter. -/
theorem claim_C7_witness :
    ((ParseSprintContent (("- [ ] ❌🔄❌ fix the build").toList)).Tasks[0]? =
      some { Index := 0, Text := ("fix the build").toList, Checked := false, LineNum := 1,
             FailureCount := 2, ReplanCount := 1, SubTasks := [] }) ∧
    (headIsGlyph (("fix the build").toList) = false) ∧
    (∃ s₂ d₂, (ParseSprintContent (("- [ ] ❌🔄❌ fix the build").toList)).ClearFailures 0
        { FileContent := ("- [ ] ❌🔄❌ fix the build").toList, WriteOk := true } =
        (Except.ok (), s₂, d₂) ∧
      d₂.FileContent = s₂.Content ∧
      (ParseSprintContent s₂.Content).Tasks.length =
        (ParseSprintContent (("- [ ] ❌🔄❌ fix the build").toList)).Tasks.length ∧
      ∃ t₂, (ParseSprintContent s₂.Content).Tasks[0]? = some t₂ ∧
        t₂.FailureCount = 0 ∧ t₂.ReplanCount = 1 ∧ t₂.Checked = false ∧
        t₂.Text = ("fix the build").toList ∧
        NormalizeTaskText t₂.Text = NormalizeTaskText (("fix the build").toList)) :=
  ⟨by decide, by decide,
   claim_C7 (("- [ ] ❌🔄❌ fix the build").toList) 0
     { Index := 0, Text := ("fix the build").toList, Checked := false, LineNum := 1,
       FailureCount := 2, ReplanCount := 1, SubTasks := [] } (by decide) (by decide)⟩

/-- The number of positions in a line at which an unchecked-box token starts;
the token cannot overlap itself, so this is the occurrence count that the
single-replacement in checkLineAt scans for. -/
def countBox : Str → Nat
  | [] => 0
  | c :: cs => (if List.isPrefixOf ['[', ' ', ']'] (c :: cs) then 1 else 0) + countBox cs

theorem box_isPrefixOf_iff (l : Str) :
    List.isPrefixOf ['[', ' ', ']'] l = true ↔ ∃ w, l = '[' :: ' ' :: ']' :: w := by
  rw [List.isPrefixOf_iff_prefix]
  constructor
  · rintro ⟨w, hw⟩
    exact ⟨w, hw.symm⟩
  · rintro ⟨w, hw⟩
    exact ⟨w, hw.symm⟩

theorem box_not_prefix_of_head (c : Char) (w : Str) (hc : c ≠ '[') :
    ¬(List.isPrefixOf ['[', ' ', ']'] (c :: w) = true) := by
  rw [box_isPrefixOf_iff]
  rintro ⟨w₂, hw⟩
  injection hw with h₁ _
  exact hc h₁

theorem box_not_prefix_of_second (c : Char) (w : Str) (hc : c ≠ ' ') :
    ¬(List.isPrefixOf ['[', ' ', ']'] ('[' :: c :: w) = true) := by
  rw [box_isPrefixOf_iff]
  rintro ⟨w₂, hw⟩
  injection hw with _ hw
  injection hw with h₂ _
  exact hc h₂

theorem countBox_chk_append (w : Str) :
    countBox ('[' :: 'x' :: ']' :: w) = countBox w := by
  rw [countBox, if_neg (box_not_prefix_of_second 'x' (']' :: w) (by decide)), Nat.zero_add]
  rw [countBox, if_neg (box_not_prefix_of_head 'x' (']' :: w) (by decide)), Nat.zero_add]
  rw [countBox, if_neg (box_not_prefix_of_head ']' w (by decide)), Nat.zero_add]

theorem countBox_tail_le (c : Char) (cs : Str) : countBox cs ≤ countBox (c :: cs) := by
  rw [countBox]
  exact Nat.le_add_left _ _

theorem countBox_drop_two_le (cs : Str) : countBox (cs.drop 2) ≤ countBox cs := by
  cases cs with
  | nil => exact Nat.le_refl _
  | cons x xs =>
    cases xs with
    | nil => exact Nat.zero_le _
    | cons y ys =>
      show countBox ys ≤ countBox (x :: y :: ys)
      calc countBox ys ≤ countBox (y :: ys) := countBox_tail_le y ys
        _ ≤ countBox (x :: y :: ys) := countBox_tail_le x (y :: ys)

theorem replaceFirst_box_cons_of_ne (c : Char) (cs t : Str) (hc : c ≠ '[')
    (h : replaceFirst ['[', ' ', ']'] ['[', 'x', ']'] cs = c :: t) :
    ∃ cs₂, cs = c :: cs₂ ∧ replaceFirst ['[', ' ', ']'] ['[', 'x', ']'] cs₂ = t := by
  cases cs with
  | nil =>
    rw [replaceFirst] at h
    exact absurd h (by simp)
  | cons x xs =>
    rw [replaceFirst] at h
    by_cases hp : List.isPrefixOf ['[', ' ', ']'] (x :: xs) = true
    · rw [if_pos hp] at h
      injection h with h₁ _
      exact absurd h₁.symm hc
    · rw [if_neg hp] at h
      injection h with h₁ h₂
      exact ⟨xs, by rw [h₁], h₂⟩

theorem box_not_prefix_replaceFirst (c : Char) (cs : Str)
    (h : ¬(List.isPrefixOf ['[', ' ', ']'] (c :: cs) = true)) :
    ¬(List.isPrefixOf ['[', ' ', ']']
        (c :: replaceFirst ['[', ' ', ']'] ['[', 'x', ']'] cs) = true) := by
  intro hp
  rw [box_isPrefixOf_iff] at hp
  obtain ⟨w, hw⟩ := hp
  injection hw with h₁ hw
  obtain ⟨cs₂, hcs, hr⟩ := replaceFirst_box_cons_of_ne ' ' cs (']' :: w) (by decide) hw
  obtain ⟨cs₃, hcs₂, _⟩ := replaceFirst_box_cons_of_ne ']' cs₂ w (by decide) hr
  apply h
  rw [box_isPrefixOf_iff]
  exact ⟨cs₃, by rw [h₁, hcs, hcs₂]⟩

theorem replaceFirst_box_of_countBox_zero (l : Str) (h : countBox l = 0) :
    replaceFirst ['[', ' ', ']'] ['[', 'x', ']'] l = l := by
  induction l with
  | nil => rfl
  | cons c cs ih =>
    rw [countBox] at h
    by_cases hp : List.isPrefixOf ['[', ' ', ']'] (c :: cs) = true
    · rw [if_pos hp] at h
      omega
    · rw [if_neg hp, Nat.zero_add] at h
      rw [replaceFirst, if_neg hp, ih h]

theorem countBox_replaceFirst_box (l : Str) (h : countBox l ≤ 1) :
    countBox (replaceFirst ['[', ' ', ']'] ['[', 'x', ']'] l) = 0 := by
  induction l with
  | nil => rfl
  | cons c cs ih =>
    rw [countBox] at h
    by_cases hp : List.isPrefixOf ['[', ' ', ']'] (c :: cs) = true
    · rw [if_pos hp] at h
      rw [replaceFirst, if_pos hp]
      have hle : countBox ((c :: cs).drop 3) ≤ countBox cs := countBox_drop_two_le cs
      show countBox ('[' :: 'x' :: ']' :: (c :: cs).drop 3) = 0
      rw [countBox_chk_append]
      omega
    · rw [if_neg hp, Nat.zero_add] at h
      rw [replaceFirst, if_neg hp]
      rw [countBox, if_neg (box_not_prefix_replaceFirst c cs hp), Nat.zero_add]
      exact ih h

theorem checkSubTask_eq_checkLineAt (s : SprintState) (ti si : Nat) (t : Task)
    (st : SubTask) (d : Disk)
    (ht : s.Tasks[ti]? = some t) (hst : t.SubTasks[si]? = some st) :
    s.CheckSubTask (ti : Int) (si : Int) d = s.checkLineAt st.LineNum d := by
  have hilen : ti < s.Tasks.length := by
    by_contra hcon
    rw [List.getElem?_eq_none (by omega)] at ht
    exact absurd ht (by simp)
  have hjlen : si < t.SubTasks.length := by
    by_contra hcon
    rw [List.getElem?_eq_none (by omega)] at hst
    exact absurd hst (by simp)
  have hib : ¬((ti : Int) < 0 ∨ (s.Tasks.length : Int) ≤ (ti : Int)) := by
    push_neg
    exact ⟨Int.ofNat_nonneg ti, by exact_mod_cast hilen⟩
  have hjb : ¬((si : Int) < 0 ∨ (t.SubTasks.length : Int) ≤ (si : Int)) := by
    push_neg
    exact ⟨Int.ofNat_nonneg si, by exact_mod_cast hjlen⟩
  rw [SprintState.CheckSubTask, if_neg hib, Int.toNat_natCast, ht]
  simp only [if_neg hjb, Int.toNat_natCast, hst]

theorem checkLineAt_noop (s : SprintState) (ln : Nat) (d : Disk) (line : Str)
    (hpos : 1 ≤ ln) (hline : (splitOnNl s.Content)[ln - 1]? = some line)
    (hid : replaceFirst ['[', ' ', ']'] ['[', 'x', ']'] line = line) :
    s.checkLineAt ln d = (Except.ok (), s, d) := by
  have hlb : ln - 1 < (splitOnNl s.Content).length := by
    by_contra hcon
    rw [List.getElem?_eq_none (by omega)] at hline
    exact absurd hline (by simp)
  have hb : ¬(ln < 1 ∨ (splitOnNl s.Content).length < ln) := by
    push_neg
    exact ⟨hpos, by omega⟩
  rw [SprintState.checkLineAt]
  simp only [if_neg hb, hline]
  rw [if_pos hid]

theorem checkLineAt_write (s : SprintState) (ln : Nat) (d : Disk) (line : Str)
    (hpos : 1 ≤ ln) (hline : (splitOnNl s.Content)[ln - 1]? = some line)
    (hw : d.WriteOk = true)
    (hne : ¬(replaceFirst ['[', ' ', ']'] ['[', 'x', ']'] line = line)) :
    s.checkLineAt ln d =
      (Except.ok (),
       { s with Content := joinNl ((splitOnNl s.Content).set (ln - 1)
           (replaceFirst ['[', ' ', ']'] ['[', 'x', ']'] line)) },
       { d with FileContent := joinNl ((splitOnNl s.Content).set (ln - 1)
           (replaceFirst ['[', ' ', ']'] ['[', 'x', ']'] line)) }) := by
  have hlb : ln - 1 < (splitOnNl s.Content).length := by
    by_contra hcon
    rw [List.getElem?_eq_none (by omega)] at hline
    exact absurd hline (by simp)
  have hb : ¬(ln < 1 ∨ (splitOnNl s.Content).length < ln) := by
    push_neg
    exact ⟨hpos, by omega⟩
  rw [SprintState.checkLineAt]
  simp only [if_neg hb, hline]
  rw [if_neg hne]
  simp only [commitContent, writeBack, hw, if_true]

/-- C8 (counterexample): on a sub-task line whose description contains a
second unchecked-box token, the first CheckSubTask checks the box and the
second call replaces the token inside the description, so calling twice does
not produce the same document as calling once. -/
theorem claim_C8_counterexample :
    (((ParseSprintContent (("- [ ] T\n  - [ ] a: x [ ] y").toList)).CheckSubTask 0 0
        { FileContent := ("- [ ] T\n  - [ ] a: x [ ] y").toList,
          WriteOk := true }).2.1.CheckSubTask 0 0
      ((ParseSprintContent (("- [ ] T\n  - [ ] a: x [ ] y").toList)).CheckSubTask 0 0
        { FileContent := ("- [ ] T\n  - [ ] a: x [ ] y").toList,
          WriteOk := true }).2.2).2.1.Content ≠
    ((ParseSprintContent (("- [ ] T\n  - [ ] a: x [ ] y").toList)).CheckSubTask 0 0
      { FileContent := ("- [ ] T\n  - [ ] a: x [ ] y").toList,
        WriteOk := true }).2.1.Content := by
  decide

/-- C8 (amended): checking a sub-task is idempotent provided the sub-task's
source line contains at most one unchecked-box token: for a parsed state and
a valid index pair, the first CheckSubTask succeeds and a second identical
call returns the same state and disk unchanged, as a success rather than an
error. -/
theorem claim_C8_amended (content : Str) (ti si : Nat) (t : Task) (st : SubTask) (line : Str)
    (ht : (ParseSprintContent content).Tasks[ti]? = some t)
    (hst : t.SubTasks[si]? = some st)
    (hline : (splitOnNl content)[st.LineNum - 1]? = some line)
    (hb1 : countBox line ≤ 1) :
    ∃ s₂ d₂, (ParseSprintContent content).CheckSubTask (ti : Int) (si : Int)
        { FileContent := content, WriteOk := true } = (Except.ok (), s₂, d₂) ∧
      s₂.CheckSubTask (ti : Int) (si : Int) d₂ = (Except.ok (), s₂, d₂) := by
  obtain ⟨_, hsubs⟩ := parse_sound content t (mem_of_getElemOpt _ _ _ ht)
  obtain ⟨hpos, _⟩ := hsubs st (mem_of_getElemOpt _ _ _ hst)
  have hcs := checkSubTask_eq_checkLineAt (ParseSprintContent content) ti si t st
    { FileContent := content, WriteOk := true } ht hst
  by_cases hid : replaceFirst ['[', ' ', ']'] ['[', 'x', ']'] line = line
  · refine ⟨ParseSprintContent content, { FileContent := content, WriteOk := true }, ?_, ?_⟩
    · rw [hcs]
      exact checkLineAt_noop (ParseSprintContent content) st.LineNum
        { FileContent := content, WriteOk := true } line hpos hline hid
    · rw [hcs]
      exact checkLineAt_noop (ParseSprintContent content) st.LineNum
        { FileContent := content, WriteOk := true } line hpos hline hid
  · have hlb : st.LineNum - 1 < (splitOnNl content).length := by
      by_contra hcon
      rw [List.getElem?_eq_none (by omega)] at hline
      exact absurd hline (by simp)
    have hnlNew : '\n' ∉ replaceFirst ['[', ' ', ']'] ['[', 'x', ']'] line := by
      intro hmem
      rcases mem_replaceFirst _ _ line '\n' hmem with h | h
      · exact not_mem_of_mem_splitOnNl content line (mem_of_getElemOpt _ _ _ hline) h
      · simp at h
    have hsetne : (splitOnNl content).set (st.LineNum - 1)
        (replaceFirst ['[', ' ', ']'] ['[', 'x', ']'] line) ≠ [] := by
      intro hnil
      have hlen := congrArg List.length hnil
      rw [List.length_set] at hlen
      simp only [List.length_nil] at hlen
      omega
    have hnl₂ : ∀ x ∈ (splitOnNl content).set (st.LineNum - 1)
        (replaceFirst ['[', ' ', ']'] ['[', 'x', ']'] line), '\n' ∉ x := by
      intro x hx
      rcases List.mem_or_eq_of_mem_set hx with h | h
      · exact not_mem_of_mem_splitOnNl content x h
      · rw [h]
        exact hnlNew
    have hsplit : splitOnNl (joinNl ((splitOnNl content).set (st.LineNum - 1)
        (replaceFirst ['[', ' ', ']'] ['[', 'x', ']'] line))) =
        (splitOnNl content).set (st.LineNum - 1)
          (replaceFirst ['[', ' ', ']'] ['[', 'x', ']'] line) :=
      splitOnNl_joinNl _ hsetne hnl₂
    have hline₂ : (splitOnNl (joinNl ((splitOnNl content).set (st.LineNum - 1)
        (replaceFirst ['[', ' ', ']'] ['[', 'x', ']'] line))))[st.LineNum - 1]? =
        some (replaceFirst ['[', ' ', ']'] ['[', 'x', ']'] line) := by
      rw [hsplit]
      exact getElemOpt_set_self _ _ _ hlb
    have hid₂ : replaceFirst ['[', ' ', ']'] ['[', 'x', ']']
        (replaceFirst ['[', ' ', ']'] ['[', 'x', ']'] line) =
        replaceFirst ['[', ' ', ']'] ['[', 'x', ']'] line :=
      replaceFirst_box_of_countBox_zero _ (countBox_replaceFirst_box line hb1)
    refine ⟨{ ParseSprintContent content with Content := joinNl ((splitOnNl content).set
        (st.LineNum - 1) (replaceFirst ['[', ' ', ']'] ['[', 'x', ']'] line)) },
      { FileContent := joinNl ((splitOnNl content).set (st.LineNum - 1)
          (replaceFirst ['[', ' ', ']'] ['[', 'x', ']'] line)), WriteOk := true }, ?_, ?_⟩
    · rw [hcs]
      exact checkLineAt_write (ParseSprintContent content) st.LineNum
        { FileContent := content, WriteOk := true } line hpos hline rfl hid
    · rw [checkSubTask_eq_checkLineAt { ParseSprintContent content with
          Content := joinNl ((splitOnNl content).set (st.LineNum - 1)
            (replaceFirst ['[', ' ', ']'] ['[', 'x', ']'] line)) } ti si t st
        { FileContent := joinNl ((splitOnNl content).set (st.LineNum - 1)
            (replaceFirst ['[', ' ', ']'] ['[', 'x', ']'] line)), WriteOk := true } ht hst]
      exact checkLineAt_noop _ st.LineNum _
        (replaceFirst ['[', ' ', ']'] ['[', 'x', ']'] line) hpos hline₂ hid₂

/-- C8 (witness): one task with one sub-task whose line carries a single
unchecked box; the first call checks it and the second is a successful
no-op. -/
theorem claim_C8_witness :
    ((ParseSprintContent (("- [ ] T\n  - [ ] a: do it").toList)).Tasks[0]? =
      some { Index := 0, Text := ['T'], Checked := false, LineNum := 1, FailureCount := 0,
             ReplanCount := 0,
             SubTasks := [{ Index := 0, Skill := ['a'], Text := ("do it").toList,
                            Checked := false, LineNum := 2, ParentIndex := 0 }] }) ∧
    (countBox (("  - [ ] a: do it").toList) ≤ 1) ∧
    (∃ s₂ d₂, (ParseSprintContent (("- [ ] T\n  - [ ] a: do it").toList)).CheckSubTask 0 0
        { FileContent := ("- [ ] T\n  - [ ] a: do it").toList, WriteOk := true } =
        (Except.ok (), s₂, d₂) ∧
      s₂.CheckSubTask 0 0 d₂ = (Except.ok (), s₂, d₂)) :=
  ⟨by decide, by decide,
   claim_C8_amended (("- [ ] T\n  - [ ] a: do it").toList) 0 0
     { Index := 0, Text := ['T'], Checked := false, LineNum := 1, FailureCount := 0,
       ReplanCount := 0,
       SubTasks := [{ Index := 0, Skill := ['a'], Text := ("do it").toList,
                      Checked := false, LineNum := 2, ParentIndex := 0 }] }
     { Index := 0, Skill := ['a'], Text := ("do it").toList, Checked := false, LineNum := 2,
       ParentIndex := 0 }
     (("  - [ ] a: do it").toList) (by decide) (by decide) (by decide) (by decide)⟩

end Agate
